import Mathlib

/-!
Node ranking of the `jenkins` placement strategy.

A shallow embedding of `scheduler/strategy/jenkins.go` and
`scheduler/strategy/weighted_node.go`.

Conventions of the embedding:

* Go `int64` values (and `int`, taken as 64 bits wide) are unbounded integers; every
  arithmetic operation of the source is followed by `wrap64`, the reduction to
  the two's complement range `[-2^63, 2^63)`.
* Go integer division truncates toward zero (`Int.tdiv`) and raises a run-time
  panic when the divisor is zero (`int64Div` returns `none`).
* A call returning `([]*node.Node, error)` is an `Outcome`: `ok l` for
  `(l, nil)`, `err e` for `(nil, e)` and `panic` for a run-time panic.
* `map[string]string` is an association list read with `List.lookup`.
* Pointers are taken to be non-nil; a node carries its `ID`.
* `BinpackPlacementStrategy.RankAndSort`, `SpreadPlacementStrategy.RankAndSort`,
  `sort.Sort` and `cluster.SwarmLabelNamespace` live outside the two files and
  are parameters of the definitions that use them. Concrete inputs instantiate
  them with the two strategies as the specification describes them, with an
  insertion sort, and with the namespace `com.docker.swarm`.
-/

namespace Strategy

/-! ## Machine integers -/

/-- Reduction of an integer to the `int64` range (two's complement wrap-around). -/
def wrap64 (x : Int) : Int := (x + 2 ^ 63) % 2 ^ 64 - 2 ^ 63

/-- The values an `int64` can hold. -/
def isInt64 (x : Int) : Prop := -(2 ^ 63) ≤ x ∧ x < 2 ^ 63

instance (x : Int) : Decidable (isInt64 x) :=
  inferInstanceAs (Decidable (_ ∧ _))

/-- Go `a / b` on `int64`: `none` is the divide-by-zero panic, otherwise the
quotient truncated toward zero (and wrapped, for `MinInt64 / -1`). -/
def int64Div (a b : Int) : Option Int :=
  if b = 0 then none else some (wrap64 (Int.tdiv a b))

/-! ## Data model (`cluster` and `node` packages, fields read by the strategy) -/

/-- Fields of `HostConfig` read by the strategy (`int64` both). -/
structure HostConfig where
  CPUShares : Int
  Memory : Int
deriving DecidableEq

/-- Fields of `cluster.ContainerConfig` read by the strategy. -/
structure ContainerConfig where
  Labels : List (String × String)
  HostConfig : HostConfig
deriving DecidableEq

/-- A running container, `cluster.Container`. -/
structure Container where
  Config : ContainerConfig
deriving DecidableEq

/-- Fields of `node.Node` read by the strategy. -/
structure Node where
  ID : String
  TotalCpus : Int
  UsedCpus : Int
  TotalMemory : Int
  UsedMemory : Int
  HealthIndicator : Int
  Containers : List Container
deriving DecidableEq

/-- The errors of the package; `ErrNoResourcesAvailable` is the only one the
two files raise. -/
inductive Error where
  | ErrNoResourcesAvailable
deriving DecidableEq

/-- Result of a Go call returning `(value, error)`, or panicking. -/
inductive Outcome (α : Type) where
  | ok (value : α)
  | err (e : Error)
  | panic
deriving DecidableEq

/-! ## `strconv.Atoi` -/

/-- Value of a string of decimal digits. -/
def digitsValue (ds : List Char) : Nat :=
  ds.foldl (fun n ch => n * 10 + (ch.toNat - 48)) 0

/-- Go `strconv.Atoi` on a 64-bit platform: an optional sign, then at least
one decimal digit and nothing else; `none` is a syntax or range error. -/
def Atoi (s : String) : Option Int :=
  let body : Bool × List Char :=
    match s.toList with
    | '-' :: r => (true, r)
    | '+' :: r => (false, r)
    | cs => (false, cs)
  if body.2.isEmpty || !(body.2.all Char.isDigit) then none
  else
    let n : Int := if body.1 then -(digitsValue body.2 : Int) else (digitsValue body.2 : Int)
    if isInt64 n then some n else none

/-! ## jenkins.go -/

/-- The label that marks a Jenkins slave container. -/
def jenkinsIdLabel : String := "com.nirima.jenkins.plugins.docker.JenkinsId"

/-- Go `JenkinsWeight`: the relative weight of a Jenkins slave container. -/
def JenkinsWeight (SwarmLabelNamespace : String) (c : ContainerConfig) : Int :=
  let ok := (c.Labels.lookup jenkinsIdLabel).isSome
  if ¬ ok ∨ c.HostConfig.CPUShares > 0 ∨ c.HostConfig.Memory > 0 then 0
  else
    match c.Labels.lookup (SwarmLabelNamespace ++ ".weight") with
    | none => 1
    | some weightStr =>
      match Atoi weightStr with
      | none => 1
      | some weight => if weight ≤ 0 then 1 else weight

/-! ## weighted_node.go -/

/-- Go `weightedNode`. -/
structure weightedNode where
  Node : Node
  Weight : Int
  Containers : Int
deriving DecidableEq

/-- Go `weightedNodeList`. -/
abbrev weightedNodeList := List weightedNode

/-- Free CPUs as `Less` computes them: `TotalCpus - UsedCpus` in `int64`. -/
def freeCpus (n : Node) : Int := wrap64 (n.TotalCpus - n.UsedCpus)

/-- Free memory as `Less` computes it: `TotalMemory - UsedMemory` in `int64`. -/
def freeMemory (n : Node) : Int := wrap64 (n.TotalMemory - n.UsedMemory)

/-- Body of Go `weightedNodeList.Less` on the two elements `ip = n[i]`,
`jp = n[j]`. -/
def weightedNode.Less (ip jp : weightedNode) : Bool :=
  if ip.Weight ≠ jp.Weight then decide (ip.Weight < jp.Weight)
  else if ip.Containers ≠ jp.Containers then decide (ip.Containers < jp.Containers)
  else
    let ipFreeCpus := freeCpus ip.Node
    let jpFreeCpus := freeCpus jp.Node
    if ipFreeCpus ≠ jpFreeCpus then decide (ipFreeCpus > jpFreeCpus)
    else decide (freeMemory ip.Node > freeMemory jp.Node)

/-- Go `weightedNodeList.Less(i, j)`; the indices are in range. -/
def weightedNodeList.Less (n : weightedNodeList) (i j : Fin n.length) : Bool :=
  (n.get i).Less (n.get j)

/-- What one iteration of a scoring loop does with its node. -/
inductive Visit where
  | panics
  | skipped
  | appended (w : weightedNode)
deriving DecidableEq

/-- The scoring loops: visit the nodes in order, appending to `weightedNodes`;
`none` when an iteration panics. -/
def visitNodes (body : Node → Visit) : List Node → weightedNodeList → Option weightedNodeList
  | [], weightedNodes => some weightedNodes
  | node :: rest, weightedNodes =>
    match body node with
    | Visit.panics => none
    | Visit.skipped => visitNodes body rest weightedNodes
    | Visit.appended w => visitNodes body rest (weightedNodes ++ [w])

/-- The end of both scoring functions: an empty list is an error. -/
def finish : Option weightedNodeList → Outcome weightedNodeList
  | none => Outcome.panic
  | some weightedNodes =>
    if weightedNodes.length = 0 then Outcome.err Error.ErrNoResourcesAvailable
    else Outcome.ok weightedNodes

/-- Loop body of Go `weighNodes`. -/
def weighNode (config : ContainerConfig) (healthinessFactor : Int) (node : Node) : Visit :=
  let nodeMemory := node.TotalMemory
  let nodeCpus := node.TotalCpus
  if nodeMemory < config.HostConfig.Memory ∨ nodeCpus < config.HostConfig.CPUShares then
    Visit.skipped
  else
    let cpuScore : Option Int :=
      if config.HostConfig.CPUShares > 0 then
        int64Div (wrap64 (wrap64 (node.UsedCpus + config.HostConfig.CPUShares) * 100)) nodeCpus
      else some 100
    let memoryScore : Option Int :=
      if config.HostConfig.Memory > 0 then
        int64Div (wrap64 (wrap64 (node.UsedMemory + config.HostConfig.Memory) * 100)) nodeMemory
      else some 100
    match cpuScore, memoryScore with
    | some cpuScore, some memoryScore =>
      if cpuScore ≤ 100 ∧ memoryScore ≤ 100 then
        Visit.appended
          { Node := node
            Weight := wrap64 (wrap64 (cpuScore + memoryScore) +
              wrap64 (healthinessFactor * node.HealthIndicator))
            Containers := (node.Containers.length : Int) }
      else Visit.skipped
    | _, _ => Visit.panics

/-- Go `weighNodes`. -/
def weighNodes (config : ContainerConfig) (nodes : List Node) (healthinessFactor : Int) :
    Outcome weightedNodeList :=
  finish (visitNodes (weighNode config healthinessFactor) nodes [])

/-- The inner loop of Go `weightNodesByCapacity`: `totalWeight` of a node,
starting from the `weight` of the incoming container. -/
def totalWeight (SwarmLabelNamespace : String) (weight : Int) (node : Node) : Int :=
  node.Containers.foldl
    (fun totalWeight container =>
      wrap64 (totalWeight + JenkinsWeight SwarmLabelNamespace container.Config))
    weight

/-- The `cpuScore` of Go `weightNodesByCapacity`:
`-(node.TotalCpus - node.UsedCpus) / int64(totalWeight)`. -/
def capacityScore (node : Node) (totalWeight : Int) : Option Int :=
  int64Div (wrap64 (-(wrap64 (node.TotalCpus - node.UsedCpus)))) totalWeight

/-- Loop body of Go `weightNodesByCapacity`. -/
def weightNodeByCapacity (SwarmLabelNamespace : String) (weight : Int)
    (healthinessFactor : Int) (node : Node) : Visit :=
  let totalWeight := totalWeight SwarmLabelNamespace weight node
  match capacityScore node totalWeight with
  | none => Visit.panics
  | some cpuScore =>
    if cpuScore ≠ 0 then
      Visit.appended
        { Node := node
          Weight := wrap64 (cpuScore + wrap64 (healthinessFactor * node.HealthIndicator))
          Containers := totalWeight }
    else Visit.skipped

/-- Go `weightNodesByCapacity`. -/
def weightNodesByCapacity (SwarmLabelNamespace : String) (config : ContainerConfig)
    (nodes : List Node) (healthinessFactor : Int) : Outcome weightedNodeList :=
  let weight := JenkinsWeight SwarmLabelNamespace config
  finish (visitNodes (weightNodeByCapacity SwarmLabelNamespace weight healthinessFactor) nodes [])

/-! ## `RankAndSort` -/

/-- A placement strategy's `RankAndSort`. -/
abbrev Ranker := ContainerConfig → List Node → Outcome (List Node)

/-- Go `JenkinsPlacementStrategy.RankAndSort`. The two delegate strategies and
`sort.Sort` are parameters. -/
def JenkinsPlacementStrategy.RankAndSort (binpack spread : Ranker)
    (sort : weightedNodeList → weightedNodeList) (SwarmLabelNamespace : String)
    (config : ContainerConfig) (nodes : List Node) : Outcome (List Node) :=
  if config.HostConfig.CPUShares > 0 ∧ config.HostConfig.Memory > 0 then
    binpack config nodes
  else
    let isJenkinsSlave := (config.Labels.lookup jenkinsIdLabel).isSome
    if ¬ isJenkinsSlave then
      spread config nodes
    else
      let healthFactor : Int := -5
      match weightNodesByCapacity SwarmLabelNamespace config nodes healthFactor with
      | Outcome.panic => Outcome.panic
      | Outcome.err e => Outcome.err e
      | Outcome.ok weightedNodes => Outcome.ok ((sort weightedNodes).map (fun n => n.Node))

/-! ## The delegate strategies, from their description -/

/-- Modelled from the spec: `BinpackPlacementStrategy.RankAndSort` (the
CapacityScorer of section 4.1), whose source file is not among the two files
embedded here. It scores with `weighNodes` under its health factor, sorts the
survivors with the weighted sort and returns their nodes in order. -/
def BinpackPlacementStrategy.RankAndSort (healthFactor : Int)
    (sort : weightedNodeList → weightedNodeList) : Ranker :=
  fun config nodes =>
    match weighNodes config nodes healthFactor with
    | Outcome.panic => Outcome.panic
    | Outcome.err e => Outcome.err e
    | Outcome.ok weightedNodes => Outcome.ok ((sort weightedNodes).map (fun n => n.Node))

/-- Modelled from the spec: `SpreadPlacementStrategy.RankAndSort` (the
SpreadScorer of section 4.2), whose source file is not among the two files
embedded here. Every node passing the feasibility filter gets the same base
score, its tie-break count is its number of containers, and the weighted sort
orders them; no feasible node is an error. -/
def SpreadPlacementStrategy.RankAndSort (sort : weightedNodeList → weightedNodeList) : Ranker :=
  fun config nodes =>
    let feasible := nodes.filter (fun node =>
      ¬ (node.TotalMemory < config.HostConfig.Memory ∨
        node.TotalCpus < config.HostConfig.CPUShares))
    if feasible.length = 0 then Outcome.err Error.ErrNoResourcesAvailable
    else
      Outcome.ok ((sort (feasible.map (fun node =>
        { Node := node, Weight := 0, Containers := (node.Containers.length : Int) }))).map
          (fun n => n.Node))

/-! ## Concrete inputs -/

/-- A container configuration with the given labels and reservations. -/
def mkConfig (labels : List (String × String)) (cpuShares memory : Int) : ContainerConfig :=
  { Labels := labels, HostConfig := { CPUShares := cpuShares, Memory := memory } }

/-- A class-marked configuration without reservation and without weight label. -/
def jenkinsSlave : ContainerConfig := mkConfig [(jenkinsIdLabel, "1")] 0 0

/-- A configuration without any label and without reservation. -/
def plainConfig : ContainerConfig := mkConfig [] 0 0

/-- Node1 of the example scenarios: 10 CPUs of which 2 used, 100 bytes of
memory of which 20 used, health 0, with the given containers. -/
def exampleNode1 (containers : List Container) : Node :=
  { ID := "Node1", TotalCpus := 10, UsedCpus := 2, TotalMemory := 100, UsedMemory := 20,
    HealthIndicator := 0, Containers := containers }

/-- Node2 of the example scenarios: 10 CPUs of which 8 used, 100 bytes of
memory of which 80 used, health 0, with the given containers. -/
def exampleNode2 (containers : List Container) : Node :=
  { ID := "Node2", TotalCpus := 10, UsedCpus := 8, TotalMemory := 100, UsedMemory := 80,
    HealthIndicator := 0, Containers := containers }

/-- A lightly used node running three plain containers. -/
def busyNode : Node :=
  { ID := "A", TotalCpus := 10, UsedCpus := 2, TotalMemory := 100, UsedMemory := 20,
    HealthIndicator := 0,
    Containers := [{ Config := plainConfig }, { Config := plainConfig }, { Config := plainConfig }] }

/-- A more heavily used node running one plain container. -/
def quietNode : Node :=
  { ID := "B", TotalCpus := 10, UsedCpus := 4, TotalMemory := 100, UsedMemory := 40,
    HealthIndicator := 0, Containers := [{ Config := plainConfig }] }

/-- A node with a single free CPU, running one class-marked container. -/
def fullNode : Node :=
  { ID := "Full", TotalCpus := 10, UsedCpus := 9, TotalMemory := 100, UsedMemory := 90,
    HealthIndicator := 0, Containers := [{ Config := jenkinsSlave }] }

/-- A node too small for 4 CPU shares. -/
def smallNode : Node :=
  { ID := "Small", TotalCpus := 2, UsedCpus := 0, TotalMemory := 100, UsedMemory := 0,
    HealthIndicator := 0, Containers := [{ Config := jenkinsSlave }] }

/-! ## Absence of overflow -/

/-- The sum of the class weights that `weightNodesByCapacity` accumulates
for a node, as an unbounded integer. -/
def weightSum (ns : String) (config : ContainerConfig) (node : Node) : Int :=
  JenkinsWeight ns config + (node.Containers.map (fun c => JenkinsWeight ns c.Config)).sum

/-- No `int64` computation made by `weightNodesByCapacity` for the node
overflows: the weight sum, the free CPUs and their negation, the health term
and the composite score all lie in the `int64` range. -/
def scoredWithoutOverflow (ns : String) (config : ContainerConfig) (healthinessFactor : Int)
    (node : Node) : Prop :=
  isInt64 (weightSum ns config node) ∧
  isInt64 (node.TotalCpus - node.UsedCpus) ∧
  isInt64 (-(node.TotalCpus - node.UsedCpus)) ∧
  isInt64 (healthinessFactor * node.HealthIndicator) ∧
  isInt64 (Int.tdiv (-(node.TotalCpus - node.UsedCpus)) (weightSum ns config node) +
    healthinessFactor * node.HealthIndicator)

instance (ns : String) (config : ContainerConfig) (hf : Int) (node : Node) :
    Decidable (scoredWithoutOverflow ns config hf node) :=
  inferInstanceAs (Decidable (_ ∧ _ ∧ _ ∧ _ ∧ _))

/-- A health indicator just below `2^63 / 5`. -/
def extremeHealth : Int := 1844674407370955161

/-! ## Survivors of the two scoring loops -/

/-- The workloads `JenkinsPlacementStrategy.RankAndSort` scores itself: those
it hands neither to the binpack nor to the spread strategy. -/
def specializedPath (config : ContainerConfig) : Prop :=
  ¬ (config.HostConfig.CPUShares > 0 ∧ config.HostConfig.Memory > 0) ∧
    (config.Labels.lookup jenkinsIdLabel).isSome

instance (config : ContainerConfig) : Decidable (specializedPath config) :=
  inferInstanceAs (Decidable (_ ∧ _))

/-- The raw score `-(TotalCpus - UsedCpus) / totalWeight` that
`weightNodesByCapacity` computes for a node when placing `config`; `none`
when the division panics. -/
def rawScore (ns : String) (config : ContainerConfig) (node : Node) : Option Int :=
  capacityScore node (totalWeight ns (JenkinsWeight ns config) node)

/-- A node survives `weightNodesByCapacity` when its raw score is defined
and is not 0. -/
def survivesCapacity (ns : String) (config : ContainerConfig) (node : Node) : Bool :=
  match rawScore ns config node with
  | some cpuScore => decide (cpuScore ≠ 0)
  | none => false

/-- The capacity filter of `weighNodes`: the node is at least as large as
the requested resources. -/
def feasible (config : ContainerConfig) (node : Node) : Prop :=
  config.HostConfig.Memory ≤ node.TotalMemory ∧ config.HostConfig.CPUShares ≤ node.TotalCpus

instance (config : ContainerConfig) (node : Node) : Decidable (feasible config node) :=
  inferInstanceAs (Decidable (_ ∧ _))

/-- The `cpuScore` of `weighNodes`: 100 without CPU reservation, otherwise
`(UsedCpus + CPUShares) * 100 / TotalCpus` in `int64`. -/
def cpuScoreOf (config : ContainerConfig) (node : Node) : Int :=
  if config.HostConfig.CPUShares > 0 then
    wrap64 (Int.tdiv (wrap64 (wrap64 (node.UsedCpus + config.HostConfig.CPUShares) * 100))
      node.TotalCpus)
  else 100

/-- The `memoryScore` of `weighNodes`: 100 without memory reservation,
otherwise `(UsedMemory + Memory) * 100 / TotalMemory` in `int64`. -/
def memoryScoreOf (config : ContainerConfig) (node : Node) : Int :=
  if config.HostConfig.Memory > 0 then
    wrap64 (Int.tdiv (wrap64 (wrap64 (node.UsedMemory + config.HostConfig.Memory) * 100))
      node.TotalMemory)
  else 100

/-- A node survives `weighNodes` when it passes the capacity filter and
neither score exceeds 100. -/
def survivesWeigh (config : ContainerConfig) (node : Node) : Bool :=
  decide (feasible config node ∧ cpuScoreOf config node ≤ 100 ∧ memoryScoreOf config node ≤ 100)

/-! ## Specification-side definitions -/

/-- The element kept by an iteration, if any. -/
def Visit.kept : Visit → Option weightedNode
  | Visit.appended w => some w
  | _ => none

/-- What `sort.Sort` guarantees of its result: the same elements, with no
adjacent pair out of order (`sort.IsSorted`). -/
structure SortContract (sort : weightedNodeList → weightedNodeList) : Prop where
  perm : ∀ l, (sort l).Perm l
  sorted : ∀ l, List.Chain' (fun a b => b.Less a = false) (sort l)

/-- An insertion sort by `Less`, one function meeting `SortContract`. -/
def insertionSort (l : weightedNodeList) : weightedNodeList :=
  List.insertionSort (fun a b => b.Less a = false) l

/-! ## Definitions for the comparator and the utilisation scores -/

/-- The four keys `Less` compares, in order: score, tie-break count, free
CPUs and free memory. -/
def sortKey (w : weightedNode) : Int × Int × Int × Int :=
  (w.Weight, w.Containers, freeCpus w.Node, freeMemory w.Node)

/-- A copy of Node1 (with one class-marked container) under another
identifier. -/
def twinNode : Node :=
  { exampleNode1 [{ Config := jenkinsSlave }] with ID := "Node1b" }

/-- Node1 with one class-marked container, as scored for a class-marked
workload: score -4, tie-break count 2. -/
def scoredNode1 : weightedNode :=
  { Node := exampleNode1 [{ Config := jenkinsSlave }], Weight := -4, Containers := 2 }

/-- The twin of Node1, scored like Node1. -/
def scoredTwin : weightedNode := { Node := twinNode, Weight := -4, Containers := 2 }

/-- Node2 with one class-marked container, as scored for a class-marked
workload: score -1, tie-break count 2. -/
def scoredNode2 : weightedNode :=
  { Node := exampleNode2 [{ Config := jenkinsSlave }], Weight := -1, Containers := 2 }

/-- Another sort meeting `SortContract`: insertion sort of the reversed
list. -/
def reverseThenSort (l : weightedNodeList) : weightedNodeList := insertionSort l.reverse

/-- The `cpuScore` of the specification, in unbounded integers: 100 when no
CPU share is requested, otherwise `(usedCPU + cpuShares) * 100 / totalCPU`
truncated toward zero. -/
def specCpuScore (config : ContainerConfig) (node : Node) : Int :=
  if config.HostConfig.CPUShares = 0 then 100
  else Int.tdiv ((node.UsedCpus + config.HostConfig.CPUShares) * 100) node.TotalCpus

/-- The `memoryScore` of the specification, in unbounded integers. -/
def specMemoryScore (config : ContainerConfig) (node : Node) : Int :=
  if config.HostConfig.Memory = 0 then 100
  else Int.tdiv ((node.UsedMemory + config.HostConfig.Memory) * 100) node.TotalMemory

/-- No `int64` computation made by `weighNodes` for the node overflows: the
sums `used + requested`, their products by 100, the sum of the two scores,
the health term and the composite score all lie in the `int64` range. -/
def weighedWithoutOverflow (config : ContainerConfig) (healthinessFactor : Int)
    (node : Node) : Prop :=
  isInt64 (node.UsedCpus + config.HostConfig.CPUShares) ∧
  isInt64 ((node.UsedCpus + config.HostConfig.CPUShares) * 100) ∧
  isInt64 (node.UsedMemory + config.HostConfig.Memory) ∧
  isInt64 ((node.UsedMemory + config.HostConfig.Memory) * 100) ∧
  isInt64 (specCpuScore config node + specMemoryScore config node) ∧
  isInt64 (healthinessFactor * node.HealthIndicator) ∧
  isInt64 (specCpuScore config node + specMemoryScore config node +
    healthinessFactor * node.HealthIndicator)

instance (config : ContainerConfig) (hf : Int) (node : Node) :
    Decidable (weighedWithoutOverflow config hf node) :=
  inferInstanceAs (Decidable (_ ∧ _ ∧ _ ∧ _ ∧ _ ∧ _ ∧ _))

/-- A node with 200 CPUs of which 197 are used. -/
def largeNode : Node :=
  { ID := "Large", TotalCpus := 200, UsedCpus := 197, TotalMemory := 100, UsedMemory := 0,
    HealthIndicator := 0, Containers := [] }

/-- A node without any capacity. -/
def emptyNode : Node :=
  { ID := "Empty", TotalCpus := 0, UsedCpus := 0, TotalMemory := 0, UsedMemory := 0,
    HealthIndicator := 0, Containers := [] }

/-- A class-marked container configuration with the given weight label. -/
def weightedSlave (weight : String) : ContainerConfig :=
  mkConfig [(jenkinsIdLabel, "1"), ("com.docker.swarm.weight", weight)] 0 0

/-- Node1 running one class-marked container whose weight label is the
largest 64-bit integer. -/
def heavyNode : Node := exampleNode1 [{ Config := weightedSlave "9223372036854775807" }]

/-- Node1 running three class-marked containers of weights
9223372036854775807, 9223372036854775807 and 1. -/
def wrappingNode : Node :=
  exampleNode1 [{ Config := weightedSlave "9223372036854775807" },
    { Config := weightedSlave "9223372036854775807" }, { Config := weightedSlave "1" }]

/-- Node1 with the given containers and the health indicator
`extremeHealth`. -/
def extremeNode (id : String) (containers : List Container) : Node :=
  { exampleNode1 containers with ID := id, HealthIndicator := extremeHealth }

/-! ## Theorems -/

theorem Visit.kept_appended (w : weightedNode) : (Visit.appended w).kept = some w := rfl

theorem Visit.kept_skipped : Visit.skipped.kept = none := rfl

theorem Visit.kept_panics : Visit.panics.kept = none := rfl

/-! ## The comparator -/

theorem Less_iff (a b : weightedNode) :
    a.Less b = true ↔
      a.Weight < b.Weight ∨ (a.Weight = b.Weight ∧ (a.Containers < b.Containers ∨
        (a.Containers = b.Containers ∧ (freeCpus a.Node > freeCpus b.Node ∨
          (freeCpus a.Node = freeCpus b.Node ∧ freeMemory a.Node > freeMemory b.Node))))) := by
  simp only [weightedNode.Less]
  split_ifs with h1 h2 h3 <;> simp only [decide_eq_true_eq] <;> omega

theorem Less_eq_false_iff (a b : weightedNode) :
    a.Less b = false ↔
      b.Weight < a.Weight ∨ (a.Weight = b.Weight ∧ (b.Containers < a.Containers ∨
        (a.Containers = b.Containers ∧ (freeCpus b.Node > freeCpus a.Node ∨
          (freeCpus a.Node = freeCpus b.Node ∧ freeMemory b.Node ≥ freeMemory a.Node))))) := by
  rw [← Bool.not_eq_true, Less_iff]
  omega

theorem notLess_total (a b : weightedNode) : b.Less a = false ∨ a.Less b = false := by
  simp only [Less_eq_false_iff]
  omega

theorem notLess_trans (a b c : weightedNode) (hab : b.Less a = false) (hbc : c.Less b = false) :
    c.Less a = false := by
  simp only [Less_eq_false_iff] at *
  omega

instance notLess_isTotal : IsTotal weightedNode (fun a b => b.Less a = false) :=
  ⟨notLess_total⟩

instance notLess_isTrans : IsTrans weightedNode (fun a b => b.Less a = false) :=
  ⟨notLess_trans⟩

theorem insertionSort_contract : SortContract insertionSort where
  perm := fun l => List.perm_insertionSort _ l
  sorted := fun l => (List.sorted_insertionSort (fun a b => b.Less a = false) l).chain'

theorem SortContract.pairwise {sort : weightedNodeList → weightedNodeList}
    (hs : SortContract sort) (l : weightedNodeList) :
    List.Pairwise (fun a b => b.Less a = false) (sort l) :=
  List.chain'_iff_pairwise.mp (hs.sorted l)

/-! ## The scoring loops -/

theorem visitNodes_panics (body : Node → Visit) :
    ∀ (nodes : List Node) (acc : weightedNodeList),
      (∃ n ∈ nodes, body n = Visit.panics) → visitNodes body nodes acc = none
  | [], _, h => by simp at h
  | node :: rest, acc, h => by
    unfold visitNodes
    cases hb : body node with
    | panics => rfl
    | skipped =>
      simp only
      apply visitNodes_panics body rest acc
      obtain ⟨n, hn, hp⟩ := h
      rcases List.mem_cons.mp hn with rfl | hn
      · rw [hb] at hp; cases hp
      · exact ⟨n, hn, hp⟩
    | appended w =>
      simp only
      apply visitNodes_panics body rest
      obtain ⟨n, hn, hp⟩ := h
      rcases List.mem_cons.mp hn with rfl | hn
      · rw [hb] at hp; cases hp
      · exact ⟨n, hn, hp⟩

theorem visitNodes_completes (body : Node → Visit) :
    ∀ (nodes : List Node) (acc : weightedNodeList),
      (∀ n ∈ nodes, body n ≠ Visit.panics) →
        visitNodes body nodes acc = some (acc ++ nodes.filterMap (fun n => (body n).kept))
  | [], _, _ => by simp [visitNodes]
  | node :: rest, acc, h => by
    have hrest : ∀ n ∈ rest, body n ≠ Visit.panics := fun n hn => h n (List.mem_cons_of_mem _ hn)
    have hnode := h node (List.mem_cons_self _ _)
    unfold visitNodes
    cases hb : body node with
    | panics => exact absurd hb hnode
    | skipped =>
      simp only [List.filterMap_cons, hb, Visit.kept_skipped]
      exact visitNodes_completes body rest acc hrest
    | appended w =>
      simp only [List.filterMap_cons, hb, Visit.kept_appended]
      rw [visitNodes_completes body rest _ hrest]
      simp

theorem visitNodes_some (body : Node → Visit) (nodes : List Node) (acc ws : weightedNodeList)
    (h : visitNodes body nodes acc = some ws) :
    (∀ n ∈ nodes, body n ≠ Visit.panics) ∧
      ws = acc ++ nodes.filterMap (fun n => (body n).kept) := by
  by_cases hp : ∃ n ∈ nodes, body n = Visit.panics
  · rw [visitNodes_panics body nodes acc hp] at h; cases h
  · have hp' : ∀ n ∈ nodes, body n ≠ Visit.panics := fun n hn hb => hp ⟨n, hn, hb⟩
    rw [visitNodes_completes body nodes acc hp'] at h
    exact ⟨hp', (Option.some.inj h).symm⟩

theorem finish_ok (r : Option weightedNodeList) (ws : weightedNodeList) :
    finish r = Outcome.ok ws ↔ r = some ws ∧ ws ≠ [] := by
  cases r with
  | none => simp [finish]
  | some l =>
    simp only [finish]
    split_ifs with h
    · have hl : l = [] := List.length_eq_zero.mp h
      subst hl
      constructor
      · intro h; cases h
      · rintro ⟨h1, h2⟩; cases h1; exact absurd rfl h2
    · have hl : l ≠ [] := fun e => h (by rw [e]; rfl)
      constructor
      · intro h; cases h; exact ⟨rfl, hl⟩
      · rintro ⟨h1, _⟩; cases h1; rfl

theorem finish_err (r : Option weightedNodeList) (e : Error) :
    finish r = Outcome.err e ↔ r = some [] := by
  cases e
  cases r with
  | none => simp [finish]
  | some l =>
    simp only [finish]
    split_ifs with h
    · have hl : l = [] := List.length_eq_zero.mp h
      simp [hl]
    · have hl : l ≠ [] := fun e => h (by rw [e]; rfl)
      simp [hl]

theorem finish_panic (r : Option weightedNodeList) :
    finish r = Outcome.panic ↔ r = none := by
  cases r with
  | none => simp [finish]
  | some l => simp only [finish]; split_ifs <;> simp

/-! ## The loop bodies -/

theorem int64Div_of_ne_zero (a b : Int) (hb : b ≠ 0) :
    int64Div a b = some (wrap64 (Int.tdiv a b)) := by
  simp [int64Div, hb]

theorem int64Div_eq_none (a b : Int) : int64Div a b = none ↔ b = 0 := by
  unfold int64Div
  split_ifs with h <;> simp [h]

theorem weighNode_eq (config : ContainerConfig) (hf : Int) (node : Node) :
    weighNode config hf node =
      if survivesWeigh config node then
        Visit.appended
          { Node := node
            Weight := wrap64 (wrap64 (cpuScoreOf config node + memoryScoreOf config node) +
              wrap64 (hf * node.HealthIndicator))
            Containers := (node.Containers.length : Int) }
      else Visit.skipped := by
  unfold weighNode survivesWeigh feasible cpuScoreOf memoryScoreOf
  by_cases hfe : node.TotalMemory < config.HostConfig.Memory ∨
      node.TotalCpus < config.HostConfig.CPUShares
  · have hn : ¬ (config.HostConfig.Memory ≤ node.TotalMemory ∧
        config.HostConfig.CPUShares ≤ node.TotalCpus) := by omega
    simp only [if_pos hfe]
    rw [if_neg]
    simp only [decide_eq_true_eq]
    exact fun h => hn h.1
  · have hfe1 : config.HostConfig.Memory ≤ node.TotalMemory := by omega
    have hfe2 : config.HostConfig.CPUShares ≤ node.TotalCpus := by omega
    simp only [if_neg hfe]
    by_cases hc : config.HostConfig.CPUShares > 0 <;>
      by_cases hm : config.HostConfig.Memory > 0
    · have h1 : node.TotalCpus ≠ 0 := by omega
      have h2 : node.TotalMemory ≠ 0 := by omega
      simp only [if_pos hc, if_pos hm, int64Div_of_ne_zero _ _ h1, int64Div_of_ne_zero _ _ h2,
        decide_eq_true_eq, hfe1, hfe2, true_and]
    · have h1 : node.TotalCpus ≠ 0 := by omega
      simp only [if_pos hc, if_neg hm, int64Div_of_ne_zero _ _ h1,
        decide_eq_true_eq, hfe1, hfe2, true_and]
    · have h2 : node.TotalMemory ≠ 0 := by omega
      simp only [if_neg hc, if_pos hm, int64Div_of_ne_zero _ _ h2,
        decide_eq_true_eq, hfe1, hfe2, true_and]
    · simp only [if_neg hc, if_neg hm, decide_eq_true_eq, hfe1, hfe2, true_and]

theorem weighNode_ne_panics (config : ContainerConfig) (hf : Int) (node : Node) :
    weighNode config hf node ≠ Visit.panics := by
  rw [weighNode_eq]
  split_ifs <;> simp

theorem weightNodeByCapacity_eq (ns : String) (config : ContainerConfig) (hf : Int)
    (node : Node) :
    weightNodeByCapacity ns (JenkinsWeight ns config) hf node =
      match rawScore ns config node with
      | none => Visit.panics
      | some cpuScore =>
        if cpuScore ≠ 0 then
          Visit.appended
            { Node := node
              Weight := wrap64 (cpuScore + wrap64 (hf * node.HealthIndicator))
              Containers := totalWeight ns (JenkinsWeight ns config) node }
        else Visit.skipped := rfl

theorem weightNodeByCapacity_panics_iff (ns : String) (config : ContainerConfig) (hf : Int)
    (node : Node) :
    weightNodeByCapacity ns (JenkinsWeight ns config) hf node = Visit.panics ↔
      totalWeight ns (JenkinsWeight ns config) node = 0 := by
  rw [weightNodeByCapacity_eq]
  cases h : rawScore ns config node with
  | none =>
    simp only [true_iff]
    exact (int64Div_eq_none _ _).mp h
  | some s =>
    have h0 : totalWeight ns (JenkinsWeight ns config) node ≠ 0 := by
      intro h0
      have := (int64Div_eq_none (wrap64 (-(wrap64 (node.TotalCpus - node.UsedCpus)))) _).mpr h0
      unfold rawScore capacityScore at h
      rw [this] at h
      cases h
    simp only [h0, iff_false]
    split_ifs <;> simp

theorem rawScore_eq_none_iff (ns : String) (config : ContainerConfig) (node : Node) :
    rawScore ns config node = none ↔ totalWeight ns (JenkinsWeight ns config) node = 0 :=
  int64Div_eq_none _ _

theorem weightNodeByCapacity_kept_isSome (ns : String) (config : ContainerConfig) (hf : Int)
    (node : Node) :
    (weightNodeByCapacity ns (JenkinsWeight ns config) hf node).kept.isSome =
      survivesCapacity ns config node := by
  rw [weightNodeByCapacity_eq]
  unfold survivesCapacity
  cases rawScore ns config node with
  | none => rfl
  | some s =>
    simp only
    split_ifs with h
    · simp [Visit.kept, h]
    · simp [Visit.kept, h]

theorem weighNode_kept_isSome (config : ContainerConfig) (hf : Int) (node : Node) :
    (weighNode config hf node).kept.isSome = survivesWeigh config node := by
  rw [weighNode_eq]
  split_ifs with h
  · simp [Visit.kept, h]
  · simp [Visit.kept, h]

theorem weighNode_appended_node (config : ContainerConfig) (hf : Int) (node : Node)
    (w : weightedNode) (h : weighNode config hf node = Visit.appended w) : w.Node = node := by
  rw [weighNode_eq] at h
  split_ifs at h
  cases h
  rfl

theorem weightNodeByCapacity_appended_node (ns : String) (weight hf : Int) (node : Node)
    (w : weightedNode) (h : weightNodeByCapacity ns weight hf node = Visit.appended w) :
    w.Node = node := by
  unfold weightNodeByCapacity at h
  simp only at h
  split at h
  · cases h
  · split_ifs at h
    cases h
    rfl

/-- The kept elements of a loop whose body scores its own node. -/
theorem kept_nodes (body : Node → Visit)
    (hnode : ∀ n w, body n = Visit.appended w → w.Node = n) :
    ∀ nodes : List Node,
      (nodes.filterMap (fun n => (body n).kept)).map (fun w => w.Node) =
        nodes.filter (fun n => (body n).kept.isSome)
  | [] => rfl
  | n :: rest => by
    have ih := kept_nodes body hnode rest
    cases hb : body n with
    | panics => simp [List.filterMap_cons, List.filter_cons, hb, Visit.kept_panics, ih]
    | skipped => simp [List.filterMap_cons, List.filter_cons, hb, Visit.kept_skipped, ih]
    | appended w =>
      have hw := hnode n w hb
      simp only [List.filterMap_cons, List.filter_cons, hb, Visit.kept_appended,
        Option.isSome_some, if_true, List.map_cons, hw]
      exact congrArg _ ih

theorem kept_mem (body : Node → Visit)
    (hnode : ∀ n w, body n = Visit.appended w → w.Node = n) (nodes : List Node)
    (w : weightedNode) (hw : w ∈ nodes.filterMap (fun n => (body n).kept)) :
    w.Node ∈ nodes ∧ body w.Node = Visit.appended w := by
  obtain ⟨n, hn, hk⟩ := List.mem_filterMap.mp hw
  cases hb : body n with
  | panics => rw [hb] at hk; cases hk
  | skipped => rw [hb] at hk; cases hk
  | appended w' =>
    rw [hb, Visit.kept_appended] at hk
    cases hk
    have := hnode n w hb
    subst this
    exact ⟨hn, hb⟩

/-! ## The two scoring functions -/

theorem weighNodes_ok_iff (config : ContainerConfig) (nodes : List Node) (hf : Int)
    (ws : weightedNodeList) :
    weighNodes config nodes hf = Outcome.ok ws ↔
      ws = nodes.filterMap (fun n => (weighNode config hf n).kept) ∧ ws ≠ [] := by
  unfold weighNodes
  rw [finish_ok, visitNodes_completes _ nodes [] (fun n _ => weighNode_ne_panics config hf n)]
  simp only [List.nil_append, Option.some.injEq]
  constructor
  · rintro ⟨h1, h2⟩; exact ⟨h1.symm, h2⟩
  · rintro ⟨h1, h2⟩; exact ⟨h1.symm, h2⟩

theorem weightNodesByCapacity_ok_iff (ns : String) (config : ContainerConfig)
    (nodes : List Node) (hf : Int) (ws : weightedNodeList) :
    weightNodesByCapacity ns config nodes hf = Outcome.ok ws ↔
      (∀ n ∈ nodes, totalWeight ns (JenkinsWeight ns config) n ≠ 0) ∧
      ws = nodes.filterMap
        (fun n => (weightNodeByCapacity ns (JenkinsWeight ns config) hf n).kept) ∧
      ws ≠ [] := by
  unfold weightNodesByCapacity
  simp only
  rw [finish_ok]
  constructor
  · rintro ⟨h1, h2⟩
    obtain ⟨hp, hw⟩ := visitNodes_some _ _ _ _ h1
    refine ⟨fun n hn h0 => hp n hn ((weightNodeByCapacity_panics_iff ns config hf n).mpr h0), ?_,
      h2⟩
    simpa using hw
  · rintro ⟨h1, h2, h3⟩
    refine ⟨?_, h3⟩
    rw [visitNodes_completes _ nodes []
      (fun n hn hp => h1 n hn ((weightNodeByCapacity_panics_iff ns config hf n).mp hp))]
    simp [h2]

theorem RankAndSort_specialized (binpack spread : Ranker)
    (sort : weightedNodeList → weightedNodeList) (ns : String)
    (config : ContainerConfig) (nodes : List Node) (hp : specializedPath config) :
    JenkinsPlacementStrategy.RankAndSort binpack spread sort ns config nodes =
      match weightNodesByCapacity ns config nodes (-5) with
      | Outcome.panic => Outcome.panic
      | Outcome.err e => Outcome.err e
      | Outcome.ok weightedNodes => Outcome.ok ((sort weightedNodes).map (fun n => n.Node)) := by
  obtain ⟨h1, h2⟩ := hp
  simp only [JenkinsPlacementStrategy.RankAndSort, if_neg h1, h2, not_true_eq_false, if_false]

theorem RankAndSort_specialized_ok (binpack spread : Ranker)
    (sort : weightedNodeList → weightedNodeList) (ns : String)
    (config : ContainerConfig) (nodes : List Node) (hp : specializedPath config)
    (out : List Node)
    (h : JenkinsPlacementStrategy.RankAndSort binpack spread sort ns config nodes =
      Outcome.ok out) :
    ∃ ws, weightNodesByCapacity ns config nodes (-5) = Outcome.ok ws ∧
      out = (sort ws).map (fun n => n.Node) := by
  rw [RankAndSort_specialized binpack spread sort ns config nodes hp] at h
  cases hw : weightNodesByCapacity ns config nodes (-5) with
  | panic => rw [hw] at h; cases h
  | err e => rw [hw] at h; cases h
  | ok ws =>
    rw [hw] at h
    simp only [Outcome.ok.injEq] at h
    exact ⟨ws, rfl, h.symm⟩

/-! ## Arithmetic -/

theorem wrap64_of_isInt64 (x : Int) (h : isInt64 x) : wrap64 x = x := by
  unfold isInt64 at h
  unfold wrap64
  omega

theorem isInt64_wrap64 (x : Int) : isInt64 (wrap64 x) := by
  unfold isInt64 wrap64
  omega

theorem tdiv_of_nonneg (a c : Int) (ha : 0 ≤ a) (hc : 0 < c) : Int.tdiv a c = a / c :=
  Int.tdiv_eq_ediv ha (le_of_lt hc)

theorem tdiv_of_nonpos (a c : Int) (ha : a ≤ 0) (hc : 0 < c) : Int.tdiv a c = -((-a) / c) := by
  have h : Int.tdiv a c = Int.tdiv (-(-a)) c := by rw [neg_neg]
  rw [h, Int.neg_tdiv, tdiv_of_nonneg (-a) c (by omega) hc]

theorem tdiv_mono (a b c : Int) (hab : a ≤ b) (hc : 0 < c) : Int.tdiv a c ≤ Int.tdiv b c := by
  rcases le_or_lt 0 a with ha | ha
  · rw [tdiv_of_nonneg a c ha hc, tdiv_of_nonneg b c (by omega) hc]
    exact Int.ediv_le_ediv hc hab
  · rcases le_or_lt 0 b with hb | hb
    · rw [tdiv_of_nonpos a c (by omega) hc, tdiv_of_nonneg b c hb hc]
      have h1 : 0 ≤ (-a) / c := Int.ediv_nonneg (by omega) (by omega)
      have h2 : 0 ≤ b / c := Int.ediv_nonneg hb (by omega)
      omega
    · rw [tdiv_of_nonpos a c (by omega) hc, tdiv_of_nonpos b c (by omega) hc]
      have := Int.ediv_le_ediv hc (show -b ≤ -a by omega)
      omega

theorem tdiv_bounds (a c : Int) (hc : 0 < c) :
    (0 ≤ a → 0 ≤ Int.tdiv a c ∧ Int.tdiv a c ≤ a) ∧
    (a ≤ 0 → a ≤ Int.tdiv a c ∧ Int.tdiv a c ≤ 0) := by
  constructor
  · intro ha
    rw [tdiv_of_nonneg a c ha hc]
    exact ⟨Int.ediv_nonneg ha (by omega), Int.ediv_le_self c ha⟩
  · intro ha
    rw [tdiv_of_nonpos a c ha hc]
    have h1 : 0 ≤ (-a) / c := Int.ediv_nonneg (by omega) (by omega)
    have h2 : (-a) / c ≤ -a := Int.ediv_le_self c (by omega)
    omega

theorem isInt64_tdiv (a c : Int) (ha : isInt64 a) (hc : 0 < c) : isInt64 (Int.tdiv a c) := by
  unfold isInt64 at *
  have hb := tdiv_bounds a c hc
  rcases le_or_lt 0 a with h | h
  · have := hb.1 h
    omega
  · have := hb.2 (by omega)
    omega

/-! ## The class weight is never negative -/

theorem JenkinsWeight_nonneg (ns : String) (c : ContainerConfig) : 0 ≤ JenkinsWeight ns c := by
  unfold JenkinsWeight
  simp only
  split_ifs with h
  · exact le_refl 0
  · split
    · decide
    · split
      · decide
      · split_ifs with h0
        · decide
        · omega

theorem JenkinsWeight_pos (ns : String) (c : ContainerConfig)
    (hmark : (c.Labels.lookup jenkinsIdLabel).isSome)
    (hcpu : c.HostConfig.CPUShares ≤ 0) (hmem : c.HostConfig.Memory ≤ 0) :
    1 ≤ JenkinsWeight ns c := by
  have hc : ¬ (¬ (c.Labels.lookup jenkinsIdLabel).isSome = true ∨
      c.HostConfig.CPUShares > 0 ∨ c.HostConfig.Memory > 0) := by
    rintro (h | h | h)
    · exact h hmark
    · omega
    · omega
  unfold JenkinsWeight
  simp only [if_neg hc]
  split
  · decide
  · split
    · decide
    · split_ifs with h0
      · decide
      · omega

theorem sum_JenkinsWeight_nonneg (ns : String) (cs : List Container) :
    0 ≤ (cs.map (fun c => JenkinsWeight ns c.Config)).sum := by
  induction cs with
  | nil => simp
  | cons c rest ih =>
    have := JenkinsWeight_nonneg ns c.Config
    simp only [List.map_cons, List.sum_cons]
    omega

theorem foldl_totalWeight (ns : String) :
    ∀ (cs : List Container) (weight : Int), 0 ≤ weight →
      isInt64 (weight + (cs.map (fun c => JenkinsWeight ns c.Config)).sum) →
      cs.foldl (fun totalWeight container =>
          wrap64 (totalWeight + JenkinsWeight ns container.Config)) weight =
        weight + (cs.map (fun c => JenkinsWeight ns c.Config)).sum
  | [], weight, _, _ => by simp
  | c :: rest, weight, hw, hr => by
    have hc := JenkinsWeight_nonneg ns c.Config
    have hs := sum_JenkinsWeight_nonneg ns rest
    simp only [List.map_cons, List.sum_cons] at hr
    have hstep : wrap64 (weight + JenkinsWeight ns c.Config) = weight + JenkinsWeight ns c.Config := by
      apply wrap64_of_isInt64
      unfold isInt64 at *
      omega
    simp only [List.foldl_cons, List.map_cons, List.sum_cons, hstep]
    rw [foldl_totalWeight ns rest _ (by omega) (by rw [add_assoc]; exact hr)]
    omega

theorem totalWeight_eq_weightSum (ns : String) (config : ContainerConfig) (node : Node)
    (h : isInt64 (weightSum ns config node)) :
    totalWeight ns (JenkinsWeight ns config) node = weightSum ns config node :=
  foldl_totalWeight ns node.Containers _ (JenkinsWeight_nonneg ns config) h

theorem weightSum_pos (ns : String) (config : ContainerConfig) (node : Node)
    (hmark : (config.Labels.lookup jenkinsIdLabel).isSome)
    (hcpu : config.HostConfig.CPUShares ≤ 0) (hmem : config.HostConfig.Memory ≤ 0) :
    1 ≤ weightSum ns config node := by
  have h1 := JenkinsWeight_pos ns config hmark hcpu hmem
  have h2 := sum_JenkinsWeight_nonneg ns node.Containers
  unfold weightSum
  omega

/-- Without overflow the loop body computes the unbounded-integer scores. -/
theorem weightNodeByCapacity_of_scoredWithoutOverflow (ns : String) (config : ContainerConfig)
    (hf : Int) (node : Node) (hpos : 1 ≤ weightSum ns config node)
    (ho : scoredWithoutOverflow ns config hf node) :
    totalWeight ns (JenkinsWeight ns config) node = weightSum ns config node ∧
    rawScore ns config node =
      some (Int.tdiv (-(node.TotalCpus - node.UsedCpus)) (weightSum ns config node)) ∧
    weightNodeByCapacity ns (JenkinsWeight ns config) hf node =
      if Int.tdiv (-(node.TotalCpus - node.UsedCpus)) (weightSum ns config node) ≠ 0 then
        Visit.appended
          { Node := node
            Weight := Int.tdiv (-(node.TotalCpus - node.UsedCpus)) (weightSum ns config node) +
              hf * node.HealthIndicator
            Containers := weightSum ns config node }
      else Visit.skipped := by
  obtain ⟨h1, h2, h3, h4, h5⟩ := ho
  have htw := totalWeight_eq_weightSum ns config node h1
  have hraw : rawScore ns config node =
      some (Int.tdiv (-(node.TotalCpus - node.UsedCpus)) (weightSum ns config node)) := by
    unfold rawScore capacityScore
    rw [htw, int64Div_of_ne_zero _ _ (by omega), wrap64_of_isInt64 _ h2, wrap64_of_isInt64 _ h3,
      wrap64_of_isInt64 _ (isInt64_tdiv _ _ h3 (by omega))]
  refine ⟨htw, hraw, ?_⟩
  rw [weightNodeByCapacity_eq, hraw]
  simp only [htw, wrap64_of_isInt64 _ h4, wrap64_of_isInt64 _ h5]

/-! ## Order of two elements of a list -/

theorem sublist_pair_of_mem {α : Type} (a b : α) (hab : a ≠ b) :
    ∀ l : List α, a ∈ l → b ∈ l → [a, b].Sublist l ∨ [b, a].Sublist l
  | [], ha, _ => by simp at ha
  | x :: rest, ha, hb => by
    rcases List.mem_cons.mp ha with hax | har
    · rcases List.mem_cons.mp hb with hbx | hbr
      · exact absurd (hax.trans hbx.symm) hab
      · left
        rw [hax]
        exact List.Sublist.cons₂ _ (List.singleton_sublist.mpr hbr)
    · rcases List.mem_cons.mp hb with hbx | hbr
      · right
        rw [hbx]
        exact List.Sublist.cons₂ _ (List.singleton_sublist.mpr har)
      · rcases sublist_pair_of_mem a b hab rest har hbr with h | h
        · exact Or.inl (List.Sublist.cons _ h)
        · exact Or.inr (List.Sublist.cons _ h)

/-! ## Delegation -/

/-- C1: a workload that declares both a CPU reservation and a memory
reservation (both amounts are non-zero; an amount is never negative), whether
class-marked or not, gets from `JenkinsPlacementStrategy.RankAndSort` exactly
the result of the binpack strategy on the same inputs, list or error. -/
theorem RankAndSort_both_reservations_is_binpack (binpack spread : Ranker)
    (sort : weightedNodeList → weightedNodeList) (ns : String)
    (config : ContainerConfig) (nodes : List Node)
    (hcpu : config.HostConfig.CPUShares ≠ 0) (hmem : config.HostConfig.Memory ≠ 0)
    (hcpu0 : 0 ≤ config.HostConfig.CPUShares) (hmem0 : 0 ≤ config.HostConfig.Memory) :
    JenkinsPlacementStrategy.RankAndSort binpack spread sort ns config nodes =
      binpack config nodes := by
  have h : config.HostConfig.CPUShares > 0 ∧ config.HostConfig.Memory > 0 := by
    constructor <;> omega
  simp only [JenkinsPlacementStrategy.RankAndSort, if_pos h]

/-- C1, at the first example scenario (4 CPU shares and 40 bytes requested):
the jenkins strategy returns what the binpack strategy returns, `[Node1]`. -/
theorem RankAndSort_both_reservations_is_binpack_witness :
    JenkinsPlacementStrategy.RankAndSort (BinpackPlacementStrategy.RankAndSort 10 insertionSort)
        (SpreadPlacementStrategy.RankAndSort insertionSort) insertionSort "com.docker.swarm"
        (mkConfig [] 4 40) [exampleNode1 [], exampleNode2 []] =
      BinpackPlacementStrategy.RankAndSort 10 insertionSort
        (mkConfig [] 4 40) [exampleNode1 [], exampleNode2 []] ∧
    BinpackPlacementStrategy.RankAndSort 10 insertionSort
        (mkConfig [] 4 40) [exampleNode1 [], exampleNode2 []] = Outcome.ok [exampleNode1 []] :=
  ⟨RankAndSort_both_reservations_is_binpack _ _ _ _ (mkConfig [] 4 40) _
      (by decide) (by decide) (by decide) (by decide), by decide⟩

/-- C2, as stated, fails: an unmarked workload reserving 1 CPU share and 10
bytes is ranked by the binpack strategy (`[A, B]`, by utilisation), not by the
spread strategy (`[B, A]`, by container count). -/
theorem RankAndSort_unmarked_reserved_not_spread :
    JenkinsPlacementStrategy.RankAndSort (BinpackPlacementStrategy.RankAndSort 10 insertionSort)
        (SpreadPlacementStrategy.RankAndSort insertionSort) insertionSort "com.docker.swarm"
        (mkConfig [] 1 10) [busyNode, quietNode] = Outcome.ok [busyNode, quietNode] ∧
    SpreadPlacementStrategy.RankAndSort insertionSort
        (mkConfig [] 1 10) [busyNode, quietNode] = Outcome.ok [quietNode, busyNode] := by
  decide

/-- C2, amended: a workload without the class-marker label that does not
declare both reservations (CPU shares or memory is not positive) gets from
`JenkinsPlacementStrategy.RankAndSort` exactly the result of the spread
strategy on the same inputs. -/
theorem RankAndSort_unmarked_is_spread (binpack spread : Ranker)
    (sort : weightedNodeList → weightedNodeList) (ns : String)
    (config : ContainerConfig) (nodes : List Node)
    (hmark : config.Labels.lookup jenkinsIdLabel = none)
    (hres : config.HostConfig.CPUShares ≤ 0 ∨ config.HostConfig.Memory ≤ 0) :
    JenkinsPlacementStrategy.RankAndSort binpack spread sort ns config nodes =
      spread config nodes := by
  have h : ¬ (config.HostConfig.CPUShares > 0 ∧ config.HostConfig.Memory > 0) := by omega
  simp [JenkinsPlacementStrategy.RankAndSort, h, hmark]

/-- C2, amended, at an unmarked workload reserving memory only. -/
theorem RankAndSort_unmarked_is_spread_witness :
    JenkinsPlacementStrategy.RankAndSort (BinpackPlacementStrategy.RankAndSort 10 insertionSort)
        (SpreadPlacementStrategy.RankAndSort insertionSort) insertionSort "com.docker.swarm"
        (mkConfig [] 0 10) [busyNode, quietNode] =
      SpreadPlacementStrategy.RankAndSort insertionSort (mkConfig [] 0 10) [busyNode, quietNode] :=
  RankAndSort_unmarked_is_spread _ _ _ _ (mkConfig [] 0 10) _ (by decide) (by decide)

/-- C3: at a class-marked workload reserving 4 CPU shares and no memory, and
Node1 without containers, `JenkinsPlacementStrategy.RankAndSort` does not
return the binpack result: whatever the delegates, it enters
`weightNodesByCapacity` with weight 0 and panics on the division by
`totalWeight = 0`, while the scoring of the binpack strategy (`weighNodes`)
succeeds on the same input. -/
theorem RankAndSort_marked_cpu_only_panics (binpack spread : Ranker)
    (sort : weightedNodeList → weightedNodeList) (healthFactor : Int) :
    JenkinsPlacementStrategy.RankAndSort binpack spread sort "com.docker.swarm"
        (mkConfig [(jenkinsIdLabel, "1")] 4 0) [exampleNode1 []] = Outcome.panic ∧
    weighNodes (mkConfig [(jenkinsIdLabel, "1")] 4 0) [exampleNode1 []] healthFactor =
      Outcome.ok [{ Node := exampleNode1 [],
                    Weight := 160,
                    Containers := 0 }] := by
  constructor
  · rfl
  · have h : weighNodes (mkConfig [(jenkinsIdLabel, "1")] 4 0) [exampleNode1 []] healthFactor =
        Outcome.ok [{ Node := exampleNode1 [],
                      Weight := wrap64 (160 + wrap64 (healthFactor * 0)),
                      Containers := 0 }] := rfl
    rw [h, Int.mul_zero]
    rfl

/-! ## The class weight -/

/-- C4: `JenkinsWeight` is a total function (it has no error result) whose
value is: 0 without the class-marker label; 0 with the marker and a positive
CPU or memory reservation; and, with the marker and no reservation, 1 without
weight label, `n` when the weight label parses to `n > 0`, and 1 when it does
not parse or parses to a value `≤ 0`. -/
theorem JenkinsWeight_cases (ns : String) (c : ContainerConfig) :
    (c.Labels.lookup jenkinsIdLabel = none → JenkinsWeight ns c = 0) ∧
    ((c.Labels.lookup jenkinsIdLabel).isSome →
      (c.HostConfig.CPUShares > 0 ∨ c.HostConfig.Memory > 0) → JenkinsWeight ns c = 0) ∧
    ((c.Labels.lookup jenkinsIdLabel).isSome →
      c.HostConfig.CPUShares ≤ 0 → c.HostConfig.Memory ≤ 0 →
        (c.Labels.lookup (ns ++ ".weight") = none → JenkinsWeight ns c = 1) ∧
        (∀ weightStr n, c.Labels.lookup (ns ++ ".weight") = some weightStr →
          Atoi weightStr = some n → n > 0 → JenkinsWeight ns c = n) ∧
        (∀ weightStr, c.Labels.lookup (ns ++ ".weight") = some weightStr →
          Atoi weightStr = none → JenkinsWeight ns c = 1) ∧
        (∀ weightStr n, c.Labels.lookup (ns ++ ".weight") = some weightStr →
          Atoi weightStr = some n → n ≤ 0 → JenkinsWeight ns c = 1)) := by
  refine ⟨?_, ?_, ?_⟩
  · intro h
    simp [JenkinsWeight, h]
  · intro hm hres
    have hc : ¬ (c.Labels.lookup jenkinsIdLabel).isSome = true ∨
        c.HostConfig.CPUShares > 0 ∨ c.HostConfig.Memory > 0 := Or.inr hres
    simp only [JenkinsWeight, if_pos hc]
  · intro hm hcpu hmem
    have hc : ¬ (¬ (c.Labels.lookup jenkinsIdLabel).isSome = true ∨
        c.HostConfig.CPUShares > 0 ∨ c.HostConfig.Memory > 0) := by
      rintro (h | h | h)
      · exact h hm
      · omega
      · omega
    refine ⟨?_, ?_, ?_, ?_⟩
    · intro hw
      simp only [JenkinsWeight, if_neg hc, hw]
    · intro weightStr n hw hp hn
      have hn' : ¬ n ≤ 0 := by omega
      simp only [JenkinsWeight, if_neg hc, hw, hp, if_neg hn']
    · intro weightStr hw hp
      simp only [JenkinsWeight, if_neg hc, hw, hp]
    · intro weightStr n hw hp hn
      simp only [JenkinsWeight, if_neg hc, hw, hp, if_pos hn]

/-- C4, at concrete configurations: no marker; marker with a memory
reservation; marker alone; marker with weight "3", "abc", "0" and "-2". -/
theorem JenkinsWeight_cases_witness :
    JenkinsWeight "com.docker.swarm" (mkConfig [("com.docker.swarm.weight", "3")] 0 0) = 0 ∧
    JenkinsWeight "com.docker.swarm" (mkConfig [(jenkinsIdLabel, "1")] 0 512) = 0 ∧
    JenkinsWeight "com.docker.swarm" jenkinsSlave = 1 ∧
    JenkinsWeight "com.docker.swarm"
      (mkConfig [(jenkinsIdLabel, "1"), ("com.docker.swarm.weight", "3")] 0 0) = 3 ∧
    JenkinsWeight "com.docker.swarm"
      (mkConfig [(jenkinsIdLabel, "1"), ("com.docker.swarm.weight", "abc")] 0 0) = 1 ∧
    JenkinsWeight "com.docker.swarm"
      (mkConfig [(jenkinsIdLabel, "1"), ("com.docker.swarm.weight", "0")] 0 0) = 1 ∧
    JenkinsWeight "com.docker.swarm"
      (mkConfig [(jenkinsIdLabel, "1"), ("com.docker.swarm.weight", "-2")] 0 0) = 1 :=
  ⟨(JenkinsWeight_cases _ _).1 (by decide),
   (JenkinsWeight_cases _ _).2.1 (by decide) (by decide),
   ((JenkinsWeight_cases _ _).2.2 (by decide) (by decide) (by decide)).1 (by decide),
   ((JenkinsWeight_cases _ _).2.2 (by decide) (by decide) (by decide)).2.1 "3" 3
      (by decide) (by decide) (by decide),
   ((JenkinsWeight_cases _ _).2.2 (by decide) (by decide) (by decide)).2.2.1 "abc"
      (by decide) (by decide),
   ((JenkinsWeight_cases _ _).2.2 (by decide) (by decide) (by decide)).2.2.2 "0" 0
      (by decide) (by decide) (by decide),
   ((JenkinsWeight_cases _ _).2.2 (by decide) (by decide) (by decide)).2.2.2 "-2" (-2)
      (by decide) (by decide) (by decide)⟩

/-! ## Survivors of the specialized scoring -/

theorem survivesCapacity_iff (ns : String) (config : ContainerConfig) (node : Node) :
    survivesCapacity ns config node = true ↔
      ∃ cpuScore, rawScore ns config node = some cpuScore ∧ cpuScore ≠ 0 := by
  unfold survivesCapacity
  cases rawScore ns config node with
  | none => simp
  | some s => simp

theorem weightNodesByCapacity_nodes (ns : String) (config : ContainerConfig)
    (nodes : List Node) (hf : Int) (ws : weightedNodeList)
    (h : weightNodesByCapacity ns config nodes hf = Outcome.ok ws) :
    ws.map (fun w => w.Node) = nodes.filter (survivesCapacity ns config) := by
  obtain ⟨_, hw, _⟩ := (weightNodesByCapacity_ok_iff ns config nodes hf ws).mp h
  rw [hw, kept_nodes _ (weightNodeByCapacity_appended_node ns _ hf) nodes]
  congr 1
  funext n
  exact weightNodeByCapacity_kept_isSome ns config hf n

theorem weightNodesByCapacity_returns (ns : String) (config : ContainerConfig)
    (nodes : List Node) (hf : Int)
    (hdiv : ∀ n ∈ nodes, totalWeight ns (JenkinsWeight ns config) n ≠ 0)
    (hsurv : ∃ n ∈ nodes, survivesCapacity ns config n = true) :
    ∃ ws, weightNodesByCapacity ns config nodes hf = Outcome.ok ws := by
  refine ⟨_, (weightNodesByCapacity_ok_iff ns config nodes hf _).mpr ⟨hdiv, rfl, ?_⟩⟩
  intro hnil
  obtain ⟨n, hn, hs⟩ := hsurv
  have := List.filterMap_eq_nil_iff.mp hnil n hn
  rw [← weightNodeByCapacity_kept_isSome ns config hf n, this] at hs
  cases hs

/-- C5: in the specialized algorithm the output holds exactly the input
nodes whose raw score `-(TotalCpus - UsedCpus) / totalWeight` is not 0.
The node list scored by `weightNodesByCapacity` is the input list filtered by
that test, in input order; what `RankAndSort` returns on its specialized path
is a permutation of that filtered list (so each surviving node occurs as often
as in the input, a node with raw score 0 never, and no other node); and when
no divisor is 0 and some node survives, both calls do return a list. -/
theorem specialized_output_is_nonzero_raw_scores (ns : String) (config : ContainerConfig)
    (nodes : List Node) (hf : Int) :
    (∀ n, survivesCapacity ns config n = true ↔
      ∃ cpuScore, rawScore ns config n = some cpuScore ∧ cpuScore ≠ 0) ∧
    (∀ ws, weightNodesByCapacity ns config nodes hf = Outcome.ok ws →
      ws.map (fun w => w.Node) = nodes.filter (survivesCapacity ns config)) ∧
    (∀ (binpack spread : Ranker) (sort : weightedNodeList → weightedNodeList) (out : List Node),
      SortContract sort → specializedPath config →
      JenkinsPlacementStrategy.RankAndSort binpack spread sort ns config nodes = Outcome.ok out →
        out.Perm (nodes.filter (survivesCapacity ns config))) ∧
    ((∀ n ∈ nodes, totalWeight ns (JenkinsWeight ns config) n ≠ 0) →
      (∃ n ∈ nodes, survivesCapacity ns config n = true) →
        (∃ ws, weightNodesByCapacity ns config nodes hf = Outcome.ok ws) ∧
        (specializedPath config →
          ∀ (binpack spread : Ranker) (sort : weightedNodeList → weightedNodeList),
            ∃ out, JenkinsPlacementStrategy.RankAndSort binpack spread sort ns config nodes =
              Outcome.ok out)) := by
  refine ⟨survivesCapacity_iff ns config, weightNodesByCapacity_nodes ns config nodes hf, ?_, ?_⟩
  · intro binpack spread sort out hs hp h
    obtain ⟨ws, hws, hout⟩ := RankAndSort_specialized_ok binpack spread sort ns config nodes hp out h
    rw [hout, ← weightNodesByCapacity_nodes ns config nodes (-5) ws hws]
    exact (hs.perm ws).map _
  · intro hdiv hsurv
    refine ⟨weightNodesByCapacity_returns ns config nodes hf hdiv hsurv, ?_⟩
    intro hp binpack spread sort
    obtain ⟨ws, hws⟩ := weightNodesByCapacity_returns ns config nodes (-5) hdiv hsurv
    rw [RankAndSort_specialized binpack spread sort ns config nodes hp, hws]
    exact ⟨_, rfl⟩

/-- C5, at Node1, a node with one free CPU (raw score `-1 / 2 = 0`) and
Node2, each running one class-marked container: the full node is dropped. -/
theorem specialized_output_is_nonzero_raw_scores_witness :
    ([{ Node := exampleNode1 [{ Config := jenkinsSlave }], Weight := -4, Containers := 2 },
      { Node := exampleNode2 [{ Config := jenkinsSlave }], Weight := -1, Containers := 2 }] :
        weightedNodeList).map (fun w => w.Node) =
      [exampleNode1 [{ Config := jenkinsSlave }], fullNode,
        exampleNode2 [{ Config := jenkinsSlave }]].filter
          (survivesCapacity "com.docker.swarm" jenkinsSlave) ∧
    [exampleNode1 [{ Config := jenkinsSlave }], exampleNode2 [{ Config := jenkinsSlave }]].Perm
      ([exampleNode1 [{ Config := jenkinsSlave }], fullNode,
        exampleNode2 [{ Config := jenkinsSlave }]].filter
          (survivesCapacity "com.docker.swarm" jenkinsSlave)) :=
  ⟨(specialized_output_is_nonzero_raw_scores "com.docker.swarm" jenkinsSlave
      [exampleNode1 [{ Config := jenkinsSlave }], fullNode,
        exampleNode2 [{ Config := jenkinsSlave }]] (-5)).2.1 _ (by decide),
   (specialized_output_is_nonzero_raw_scores "com.docker.swarm" jenkinsSlave
      [exampleNode1 [{ Config := jenkinsSlave }], fullNode,
        exampleNode2 [{ Config := jenkinsSlave }]] (-5)).2.2.1
      (BinpackPlacementStrategy.RankAndSort 10 insertionSort)
      (SpreadPlacementStrategy.RankAndSort insertionSort) insertionSort _
      insertionSort_contract (by decide) (by decide)⟩

/-! ## Order of the output -/

/-- C6: on its specialized path the list returned by
`JenkinsPlacementStrategy.RankAndSort` is the node list of a scored list `ws`
(each element being what `weightNodesByCapacity` scored for its node) in which
every adjacent pair `A`, `B` satisfies `Less(B, A) = false`, that is:
`A.score < B.score`, or the scores are equal and `A`'s tie-break count is
smaller, or those are equal and `A` has more free CPU, or those are equal and
`A` has at least as much free memory. -/
theorem RankAndSort_output_ordered (binpack spread : Ranker)
    (sort : weightedNodeList → weightedNodeList) (ns : String)
    (config : ContainerConfig) (nodes out : List Node)
    (hs : SortContract sort) (hp : specializedPath config)
    (h : JenkinsPlacementStrategy.RankAndSort binpack spread sort ns config nodes =
      Outcome.ok out) :
    ∃ ws : weightedNodeList,
      out = ws.map (fun w => w.Node) ∧
      (∀ w ∈ ws,
        weightNodeByCapacity ns (JenkinsWeight ns config) (-5) w.Node = Visit.appended w) ∧
      List.Chain' (fun A B => B.Less A = false ∧
        (A.Weight < B.Weight ∨
          (A.Weight = B.Weight ∧ A.Containers < B.Containers) ∨
          (A.Weight = B.Weight ∧ A.Containers = B.Containers ∧
            freeCpus A.Node > freeCpus B.Node) ∨
          (A.Weight = B.Weight ∧ A.Containers = B.Containers ∧
            freeCpus A.Node = freeCpus B.Node ∧ freeMemory A.Node ≥ freeMemory B.Node))) ws := by
  obtain ⟨ws, hws, hout⟩ := RankAndSort_specialized_ok binpack spread sort ns config nodes hp out h
  obtain ⟨_, hw, _⟩ := (weightNodesByCapacity_ok_iff ns config nodes (-5) ws).mp hws
  refine ⟨sort ws, hout, ?_, ?_⟩
  · intro w hmem
    have hmem' : w ∈ ws := (hs.perm ws).mem_iff.mp hmem
    rw [hw] at hmem'
    exact (kept_mem _ (weightNodeByCapacity_appended_node ns _ (-5)) nodes w hmem').2
  · refine List.Chain'.imp ?_ (hs.sorted ws)
    intro A B hAB
    refine ⟨hAB, ?_⟩
    have := (Less_eq_false_iff B A).mp hAB
    omega

/-- C6, at the second example scenario given in the order Node2, Node1: the
returned list is `[Node1, Node2]`, with scores `-4` then `-1`. -/
theorem RankAndSort_output_ordered_witness :
    ∃ ws : weightedNodeList,
      [exampleNode1 [{ Config := jenkinsSlave }], exampleNode2 [{ Config := jenkinsSlave }]] =
        ws.map (fun w => w.Node) ∧
      (∀ w ∈ ws, weightNodeByCapacity "com.docker.swarm"
        (JenkinsWeight "com.docker.swarm" jenkinsSlave) (-5) w.Node = Visit.appended w) ∧
      List.Chain' (fun A B => B.Less A = false ∧
        (A.Weight < B.Weight ∨
          (A.Weight = B.Weight ∧ A.Containers < B.Containers) ∨
          (A.Weight = B.Weight ∧ A.Containers = B.Containers ∧
            freeCpus A.Node > freeCpus B.Node) ∨
          (A.Weight = B.Weight ∧ A.Containers = B.Containers ∧
            freeCpus A.Node = freeCpus B.Node ∧ freeMemory A.Node ≥ freeMemory B.Node))) ws :=
  RankAndSort_output_ordered (BinpackPlacementStrategy.RankAndSort 10 insertionSort)
    (SpreadPlacementStrategy.RankAndSort insertionSort) insertionSort "com.docker.swarm"
    jenkinsSlave
    [exampleNode2 [{ Config := jenkinsSlave }], exampleNode1 [{ Config := jenkinsSlave }]]
    [exampleNode1 [{ Config := jenkinsSlave }], exampleNode2 [{ Config := jenkinsSlave }]]
    insertionSort_contract (by decide) (by decide)

/-! ## The error -/

theorem weighNodes_err_iff (config : ContainerConfig) (nodes : List Node) (hf : Int) (e : Error) :
    weighNodes config nodes hf = Outcome.err e ↔
      ∀ n ∈ nodes, survivesWeigh config n = false := by
  unfold weighNodes
  rw [finish_err, visitNodes_completes _ nodes [] (fun n _ => weighNode_ne_panics config hf n)]
  simp only [List.nil_append, Option.some.injEq, List.filterMap_eq_nil_iff]
  constructor
  · intro h n hn
    rw [← weighNode_kept_isSome config hf n, h n hn]
    rfl
  · intro h n hn
    have := h n hn
    rw [← weighNode_kept_isSome config hf n] at this
    exact Option.not_isSome_iff_eq_none.mp (by simp [this])

theorem weighNodes_ne_panic (config : ContainerConfig) (nodes : List Node) (hf : Int) :
    weighNodes config nodes hf ≠ Outcome.panic := by
  unfold weighNodes
  rw [Ne, finish_panic,
    visitNodes_completes _ nodes [] (fun n _ => weighNode_ne_panics config hf n)]
  simp

theorem weightNodesByCapacity_err_iff (ns : String) (config : ContainerConfig)
    (nodes : List Node) (hf : Int) (e : Error) :
    weightNodesByCapacity ns config nodes hf = Outcome.err e ↔
      ∀ n ∈ nodes, rawScore ns config n = some 0 := by
  unfold weightNodesByCapacity
  simp only
  rw [finish_err]
  constructor
  · intro h n hn
    obtain ⟨hp, hw⟩ := visitNodes_some _ _ _ _ h
    have hk := List.filterMap_eq_nil_iff.mp (by simpa using hw.symm) n hn
    have hpn := hp n hn
    rw [weightNodeByCapacity_eq] at hk hpn
    cases hr : rawScore ns config n with
    | none => rw [hr] at hpn; exact absurd rfl hpn
    | some s =>
      rw [hr] at hk
      simp only at hk
      split_ifs at hk with h0
      · cases hk
      · rw [not_not] at h0
        rw [h0]
  · intro h
    have hp : ∀ n ∈ nodes,
        weightNodeByCapacity ns (JenkinsWeight ns config) hf n ≠ Visit.panics := by
      intro n hn
      rw [weightNodeByCapacity_eq, h n hn]
      simp
    rw [visitNodes_completes _ nodes [] hp]
    simp only [List.nil_append, Option.some.injEq, List.filterMap_eq_nil_iff]
    intro n hn
    rw [weightNodeByCapacity_eq, h n hn]
    rfl

theorem rawScore_zero_iff (ns : String) (config : ContainerConfig) (node : Node) :
    rawScore ns config node = some 0 ↔
      totalWeight ns (JenkinsWeight ns config) node ≠ 0 ∧
        survivesCapacity ns config node = false := by
  have hnone := rawScore_eq_none_iff ns config node
  unfold survivesCapacity
  cases hr : rawScore ns config node with
  | none =>
    rw [hr] at hnone
    have h0 : totalWeight ns (JenkinsWeight ns config) node = 0 := hnone.mp rfl
    simp [h0]
  | some s =>
    rw [hr] at hnone
    have h0 : totalWeight ns (JenkinsWeight ns config) node ≠ 0 :=
      fun h => by cases hnone.mpr h
    simp [h0]

/-- C7, as stated, fails for `weightNodesByCapacity`: for the class-marked,
reservation-free workload of weight 1 and Node1 running containers of
weights 9223372036854775807, 9223372036854775807 and 1, the weight sum wraps
to `totalWeight = 0`; no input node survives the filtering, yet the call
does not fail with `ErrNoResourcesAvailable`: it panics on the division, and
so does `RankAndSort`. -/
theorem no_survivor_without_error :
    totalWeight "com.docker.swarm" (JenkinsWeight "com.docker.swarm" jenkinsSlave)
      wrappingNode = 0 ∧
    (∀ n ∈ [wrappingNode], survivesCapacity "com.docker.swarm" jenkinsSlave n = false) ∧
    weightNodesByCapacity "com.docker.swarm" jenkinsSlave [wrappingNode] (-5) = Outcome.panic ∧
    weightNodesByCapacity "com.docker.swarm" jenkinsSlave [wrappingNode] (-5) ≠
      Outcome.err Error.ErrNoResourcesAvailable ∧
    JenkinsPlacementStrategy.RankAndSort (BinpackPlacementStrategy.RankAndSort 10 insertionSort)
      (SpreadPlacementStrategy.RankAndSort insertionSort) insertionSort "com.docker.swarm"
      jenkinsSlave [wrappingNode] = Outcome.panic := by
  decide

/-- C7, amended: `weighNodes` fails with `ErrNoResourcesAvailable` exactly
when no input node survives its filter; `weightNodesByCapacity` fails with
it only when no input node survives its filter, and, on a node list where
no divisor `totalWeight` is 0, exactly when none survives; both fail with
it on the empty node list; a list they return is never empty; `weighNodes`
never panics; and on its specialized path `RankAndSort` returns the error of
`weightNodesByCapacity` unchanged, with no node list. -/
theorem scoring_error_iff_no_survivor (ns : String) (config : ContainerConfig)
    (nodes : List Node) (hf : Int) :
    (weighNodes config nodes hf = Outcome.err Error.ErrNoResourcesAvailable ↔
      ∀ n ∈ nodes, survivesWeigh config n = false) ∧
    (weightNodesByCapacity ns config nodes hf = Outcome.err Error.ErrNoResourcesAvailable →
      ∀ n ∈ nodes, survivesCapacity ns config n = false) ∧
    ((∀ n ∈ nodes, totalWeight ns (JenkinsWeight ns config) n ≠ 0) →
      (weightNodesByCapacity ns config nodes hf = Outcome.err Error.ErrNoResourcesAvailable ↔
        ∀ n ∈ nodes, survivesCapacity ns config n = false)) ∧
    weighNodes config [] hf = Outcome.err Error.ErrNoResourcesAvailable ∧
    weightNodesByCapacity ns config [] hf = Outcome.err Error.ErrNoResourcesAvailable ∧
    (∀ ws, weighNodes config nodes hf = Outcome.ok ws → ws ≠ []) ∧
    (∀ ws, weightNodesByCapacity ns config nodes hf = Outcome.ok ws → ws ≠ []) ∧
    weighNodes config nodes hf ≠ Outcome.panic ∧
    (∀ (binpack spread : Ranker) (sort : weightedNodeList → weightedNodeList) (e : Error),
      specializedPath config → weightNodesByCapacity ns config nodes (-5) = Outcome.err e →
        JenkinsPlacementStrategy.RankAndSort binpack spread sort ns config nodes =
          Outcome.err e) := by
  have honly : weightNodesByCapacity ns config nodes hf =
      Outcome.err Error.ErrNoResourcesAvailable →
        ∀ n ∈ nodes, survivesCapacity ns config n = false := by
    intro h n hn
    exact ((rawScore_zero_iff ns config n).mp
      ((weightNodesByCapacity_err_iff ns config nodes hf _).mp h n hn)).2
  refine ⟨weighNodes_err_iff config nodes hf _, honly, ?_, rfl, rfl, ?_, ?_,
    weighNodes_ne_panic config nodes hf, ?_⟩
  · intro hdiv
    refine ⟨honly, ?_⟩
    intro hnone
    apply (weightNodesByCapacity_err_iff ns config nodes hf _).mpr
    intro n hn
    exact (rawScore_zero_iff ns config n).mpr ⟨hdiv n hn, hnone n hn⟩
  · intro ws h
    exact ((weighNodes_ok_iff config nodes hf ws).mp h).2
  · intro ws h
    exact ((weightNodesByCapacity_ok_iff ns config nodes hf ws).mp h).2.2
  · intro binpack spread sort e hp h
    rw [RankAndSort_specialized binpack spread sort ns config nodes hp, h]

/-- C7, amended, at a class-marked workload and the single node with one
free CPU and one class-marked container (`totalWeight = 2`, raw score
`-1 / 2 = 0`): no node survives, the scoring fails and `RankAndSort` returns
the error; and `weighNodes` fails on Node2 for 4 CPU shares and 40 bytes. -/
theorem scoring_error_iff_no_survivor_witness :
    weightNodesByCapacity "com.docker.swarm" jenkinsSlave [fullNode] (-5) =
      Outcome.err Error.ErrNoResourcesAvailable ∧
    JenkinsPlacementStrategy.RankAndSort (BinpackPlacementStrategy.RankAndSort 10 insertionSort)
      (SpreadPlacementStrategy.RankAndSort insertionSort) insertionSort "com.docker.swarm"
      jenkinsSlave [fullNode] = Outcome.err Error.ErrNoResourcesAvailable ∧
    weighNodes (mkConfig [] 4 40) [exampleNode2 []] 10 =
      Outcome.err Error.ErrNoResourcesAvailable :=
  ⟨((scoring_error_iff_no_survivor "com.docker.swarm" jenkinsSlave [fullNode] (-5)).2.2.1
      (by decide)).mpr (by decide),
   (scoring_error_iff_no_survivor "com.docker.swarm" jenkinsSlave [fullNode] (-5)).2.2.2.2.2.2.2.2
      _ _ _ _ (by decide) (by decide),
   (scoring_error_iff_no_survivor "com.docker.swarm" (mkConfig [] 4 40)
      [exampleNode2 []] 10).1.mpr (by decide)⟩

/-! ## Feasibility -/

theorem weighNodes_nodes (config : ContainerConfig) (nodes : List Node) (hf : Int)
    (ws : weightedNodeList) (h : weighNodes config nodes hf = Outcome.ok ws) :
    ws.map (fun w => w.Node) = nodes.filter (survivesWeigh config) := by
  obtain ⟨hw, _⟩ := (weighNodes_ok_iff config nodes hf ws).mp h
  rw [hw, kept_nodes _ (weighNode_appended_node config hf) nodes]
  congr 1
  funext n
  exact weighNode_kept_isSome config hf n

/-- C10: whatever the workload, the node list and the health factor, the
nodes of the list returned by `weighNodes` form a sublist of the input nodes,
and none of them has less total memory than the requested memory or fewer
total CPUs than the requested CPU shares. -/
theorem weighNodes_feasible (config : ContainerConfig) (nodes : List Node) (hf : Int)
    (ws : weightedNodeList) (h : weighNodes config nodes hf = Outcome.ok ws) :
    (ws.map (fun w => w.Node)).Sublist nodes ∧
    ∀ w ∈ ws, w.Node ∈ nodes ∧
      ¬ (w.Node.TotalMemory < config.HostConfig.Memory) ∧
      ¬ (w.Node.TotalCpus < config.HostConfig.CPUShares) := by
  have hn := weighNodes_nodes config nodes hf ws h
  constructor
  · rw [hn]
    exact List.filter_sublist nodes
  · intro w hw
    have hmem : w.Node ∈ nodes.filter (survivesWeigh config) := by
      rw [← hn]
      exact List.mem_map_of_mem _ hw
    obtain ⟨h1, h2⟩ := List.mem_filter.mp hmem
    unfold survivesWeigh feasible at h2
    simp only [decide_eq_true_eq] at h2
    refine ⟨h1, ?_, ?_⟩ <;> omega

/-- C10, at a request of 4 CPU shares and 40 bytes over a node with 2 CPUs,
Node1 and Node2: only Node1 is returned. -/
theorem weighNodes_feasible_witness :
    ([exampleNode1 []] : List Node).Sublist [smallNode, exampleNode1 [], exampleNode2 []] ∧
    ∀ w ∈ ([{ Node := exampleNode1 [], Weight := 120, Containers := 0 }] : weightedNodeList),
      w.Node ∈ [smallNode, exampleNode1 [], exampleNode2 []] ∧
      ¬ (w.Node.TotalMemory < (mkConfig [] 4 40).HostConfig.Memory) ∧
      ¬ (w.Node.TotalCpus < (mkConfig [] 4 40).HostConfig.CPUShares) :=
  weighNodes_feasible (mkConfig [] 4 40) [smallNode, exampleNode1 [], exampleNode2 []] 10
    [{ Node := exampleNode1 [], Weight := 120, Containers := 0 }] (by decide)

/-- C9: at a class-marked workload reserving 4 CPU shares and no memory, and
a node with 2 CPUs in total running one class-marked container,
`JenkinsPlacementStrategy.RankAndSort` scores with `weightNodesByCapacity`
(weight 0, `totalWeight = 1`, raw score `-2`) and returns the node although
its total CPU is below the request. -/
theorem RankAndSort_returns_infeasible_node (binpack spread : Ranker) :
    JenkinsPlacementStrategy.RankAndSort binpack spread insertionSort "com.docker.swarm"
        (mkConfig [(jenkinsIdLabel, "1")] 4 0) [smallNode] = Outcome.ok [smallNode] ∧
    smallNode.TotalCpus < (mkConfig [(jenkinsIdLabel, "1")] 4 0).HostConfig.CPUShares := by
  constructor
  · rfl
  · decide

/-! ## More free CPU ranks first -/

/-- C8, as stated, fails: Node1 (8 free CPUs) and Node2 (2 free CPUs), each
with one class-marked container (`totalWeight = 2`) and the same health
indicator 1844674407370955161, have raw scores `-4` and `-1`; the health
term is `-5 * 1844674407370955161 = -2^63 + 3`, so the composite score of
Node1 overflows `int64` and wraps to `2^63 - 1`, above the score `-2^63 + 2`
of Node2, and Node2 is ranked first. -/
theorem more_free_cpu_larger_score_on_overflow :
    weightNodesByCapacity "com.docker.swarm" jenkinsSlave
        [{ exampleNode1 [{ Config := jenkinsSlave }] with HealthIndicator := extremeHealth },
         { exampleNode2 [{ Config := jenkinsSlave }] with HealthIndicator := extremeHealth }]
        (-5) =
      Outcome.ok
        [{ Node := { exampleNode1 [{ Config := jenkinsSlave }] with
                      HealthIndicator := extremeHealth },
           Weight := 9223372036854775807, Containers := 2 },
         { Node := { exampleNode2 [{ Config := jenkinsSlave }] with
                      HealthIndicator := extremeHealth },
           Weight := -9223372036854775806, Containers := 2 }] ∧
    JenkinsPlacementStrategy.RankAndSort (BinpackPlacementStrategy.RankAndSort 10 insertionSort)
        (SpreadPlacementStrategy.RankAndSort insertionSort) insertionSort "com.docker.swarm"
        jenkinsSlave
        [{ exampleNode1 [{ Config := jenkinsSlave }] with HealthIndicator := extremeHealth },
         { exampleNode2 [{ Config := jenkinsSlave }] with HealthIndicator := extremeHealth }] =
      Outcome.ok
        [{ exampleNode2 [{ Config := jenkinsSlave }] with HealthIndicator := extremeHealth },
         { exampleNode1 [{ Config := jenkinsSlave }] with HealthIndicator := extremeHealth }] := by
  decide

/-- C8, amended: in the specialized algorithm with a class-marked,
reservation-free workload, take two surviving input nodes with the same
`totalWeight` and the same health indicator, both scored without `int64`
overflow. The one with more free CPU (`TotalCpus - UsedCpus`) never has the
larger composite score, and when the raw scores differ it is ranked strictly
earlier: it precedes the other in the returned list and nowhere follows it. -/
theorem more_free_cpu_ranks_first (binpack spread : Ranker)
    (sort : weightedNodeList → weightedNodeList) (ns : String)
    (config : ContainerConfig) (nodes out : List Node) (n1 n2 : Node)
    (hs : SortContract sort)
    (hmark : (config.Labels.lookup jenkinsIdLabel).isSome)
    (hcpu : config.HostConfig.CPUShares ≤ 0) (hmem : config.HostConfig.Memory ≤ 0)
    (h : JenkinsPlacementStrategy.RankAndSort binpack spread sort ns config nodes =
      Outcome.ok out)
    (hn1 : n1 ∈ nodes) (hn2 : n2 ∈ nodes)
    (hs1 : survivesCapacity ns config n1 = true) (hs2 : survivesCapacity ns config n2 = true)
    (htw : totalWeight ns (JenkinsWeight ns config) n1 =
      totalWeight ns (JenkinsWeight ns config) n2)
    (hhealth : n1.HealthIndicator = n2.HealthIndicator)
    (hfree : n1.TotalCpus - n1.UsedCpus > n2.TotalCpus - n2.UsedCpus)
    (ho1 : scoredWithoutOverflow ns config (-5) n1)
    (ho2 : scoredWithoutOverflow ns config (-5) n2) :
    ∃ w1 w2 : weightedNode,
      weightNodeByCapacity ns (JenkinsWeight ns config) (-5) n1 = Visit.appended w1 ∧
      weightNodeByCapacity ns (JenkinsWeight ns config) (-5) n2 = Visit.appended w2 ∧
      w1.Weight ≤ w2.Weight ∧
      (rawScore ns config n1 ≠ rawScore ns config n2 →
        [n1, n2].Sublist out ∧ ¬ [n2, n1].Sublist out) := by
  have hp : specializedPath config := ⟨by omega, hmark⟩
  have hpos1 := weightSum_pos ns config n1 hmark hcpu hmem
  have hpos2 := weightSum_pos ns config n2 hmark hcpu hmem
  obtain ⟨e1, r1, b1⟩ := weightNodeByCapacity_of_scoredWithoutOverflow ns config (-5) n1 hpos1 ho1
  obtain ⟨e2, r2, b2⟩ := weightNodeByCapacity_of_scoredWithoutOverflow ns config (-5) n2 hpos2 ho2
  have hsum : weightSum ns config n1 = weightSum ns config n2 := by rw [← e1, ← e2, htw]
  have hz1 : Int.tdiv (-(n1.TotalCpus - n1.UsedCpus)) (weightSum ns config n1) ≠ 0 := by
    obtain ⟨s, hs, hne⟩ := (survivesCapacity_iff ns config n1).mp hs1
    rw [r1] at hs
    cases hs
    exact hne
  have hz2 : Int.tdiv (-(n2.TotalCpus - n2.UsedCpus)) (weightSum ns config n2) ≠ 0 := by
    obtain ⟨s, hs, hne⟩ := (survivesCapacity_iff ns config n2).mp hs2
    rw [r2] at hs
    cases hs
    exact hne
  rw [if_pos hz1] at b1
  rw [if_pos hz2] at b2
  have hmono : Int.tdiv (-(n1.TotalCpus - n1.UsedCpus)) (weightSum ns config n1) ≤
      Int.tdiv (-(n2.TotalCpus - n2.UsedCpus)) (weightSum ns config n2) := by
    rw [hsum]
    exact tdiv_mono _ _ _ (by omega) (by omega)
  have x1 : ∃ w1 : weightedNode,
      weightNodeByCapacity ns (JenkinsWeight ns config) (-5) n1 = Visit.appended w1 ∧
      w1.Node = n1 ∧
      w1.Weight = Int.tdiv (-(n1.TotalCpus - n1.UsedCpus)) (weightSum ns config n1) +
        -5 * n1.HealthIndicator := ⟨_, b1, rfl, rfl⟩
  have x2 : ∃ w2 : weightedNode,
      weightNodeByCapacity ns (JenkinsWeight ns config) (-5) n2 = Visit.appended w2 ∧
      w2.Node = n2 ∧
      w2.Weight = Int.tdiv (-(n2.TotalCpus - n2.UsedCpus)) (weightSum ns config n2) +
        -5 * n2.HealthIndicator := ⟨_, b2, rfl, rfl⟩
  obtain ⟨w1, c1, d1, g1⟩ := x1
  obtain ⟨w2, c2, d2, g2⟩ := x2
  rw [hhealth] at g1
  refine ⟨w1, w2, c1, c2, by omega, ?_⟩
  intro hraw
  rw [r1, r2] at hraw
  have hlt : w1.Weight < w2.Weight := by
    have := lt_of_le_of_ne hmono (fun e => hraw (congrArg some e))
    omega
  obtain ⟨ws, hws, hout⟩ :=
    RankAndSort_specialized_ok binpack spread sort ns config nodes hp out h
  obtain ⟨_, hw, _⟩ := (weightNodesByCapacity_ok_iff ns config nodes (-5) ws).mp hws
  have hpw := hs.pairwise ws
  have key : ∀ a b : weightedNode, a ∈ sort ws → b ∈ sort ws → a.Node = n2 → b.Node = n1 →
      ¬ [a, b].Sublist (sort ws) := by
    intro a b ha hb han hbn hsub
    have ha' : a ∈ ws := (hs.perm ws).mem_iff.mp ha
    have hb' : b ∈ ws := (hs.perm ws).mem_iff.mp hb
    rw [hw] at ha' hb'
    have hka := (kept_mem _ (weightNodeByCapacity_appended_node ns _ (-5)) nodes a ha').2
    have hkb := (kept_mem _ (weightNodeByCapacity_appended_node ns _ (-5)) nodes b hb').2
    rw [han, c2] at hka
    rw [hbn, c1] at hkb
    have ea : w2 = a := Visit.appended.inj hka
    have eb : w1 = b := Visit.appended.inj hkb
    subst ea
    subst eb
    have hab : w1.Less w2 = false := List.pairwise_iff_forall_sublist.mp hpw hsub
    have := (Less_eq_false_iff w1 w2).mp hab
    omega
  have hm1 : w1 ∈ sort ws := by
    apply (hs.perm ws).mem_iff.mpr
    rw [hw]
    exact List.mem_filterMap.mpr ⟨n1, hn1, by rw [c1]; rfl⟩
  have hm2 : w2 ∈ sort ws := by
    apply (hs.perm ws).mem_iff.mpr
    rw [hw]
    exact List.mem_filterMap.mpr ⟨n2, hn2, by rw [c2]; rfl⟩
  constructor
  · have hne : w1 ≠ w2 := by
      intro e
      rw [e] at hlt
      exact lt_irrefl _ hlt
    rcases sublist_pair_of_mem w1 w2 hne (sort ws) hm1 hm2 with hsub | hsub
    · rw [hout, ← d1, ← d2]
      exact hsub.map (fun w => w.Node)
    · exact absurd hsub (key w2 w1 hm2 hm1 d2 d1)
  · intro hsub
    rw [hout] at hsub
    obtain ⟨l, hl, hmap⟩ := List.sublist_map_iff.mp hsub
    match l, hl, hmap with
    | [a, b], hl, hmap =>
      simp only [List.map_cons, List.map_nil, List.cons.injEq, and_true] at hmap
      exact key a b (hl.subset (by simp)) (hl.subset (by simp)) hmap.1.symm hmap.2.symm hl

/-- C8, amended, at the second example scenario: Node1 (10 CPUs, 2 used)
and Node2 (10 CPUs, 8 used), each holding one class-marked default-weight
container, health 0. `totalWeight` is 2 for both, the raw scores are `-4`
and `-1`, and `RankAndSort` returns `[Node1, Node2]`. -/
theorem more_free_cpu_ranks_first_witness :
    totalWeight "com.docker.swarm" (JenkinsWeight "com.docker.swarm" jenkinsSlave)
      (exampleNode1 [{ Config := jenkinsSlave }]) = 2 ∧
    totalWeight "com.docker.swarm" (JenkinsWeight "com.docker.swarm" jenkinsSlave)
      (exampleNode2 [{ Config := jenkinsSlave }]) = 2 ∧
    rawScore "com.docker.swarm" jenkinsSlave (exampleNode1 [{ Config := jenkinsSlave }]) =
      some (-4) ∧
    rawScore "com.docker.swarm" jenkinsSlave (exampleNode2 [{ Config := jenkinsSlave }]) =
      some (-1) ∧
    JenkinsPlacementStrategy.RankAndSort (BinpackPlacementStrategy.RankAndSort 10 insertionSort)
      (SpreadPlacementStrategy.RankAndSort insertionSort) insertionSort "com.docker.swarm"
      jenkinsSlave
      [exampleNode2 [{ Config := jenkinsSlave }], exampleNode1 [{ Config := jenkinsSlave }]] =
      Outcome.ok
        [exampleNode1 [{ Config := jenkinsSlave }], exampleNode2 [{ Config := jenkinsSlave }]] ∧
    ∃ w1 w2 : weightedNode,
      weightNodeByCapacity "com.docker.swarm" (JenkinsWeight "com.docker.swarm" jenkinsSlave)
        (-5) (exampleNode1 [{ Config := jenkinsSlave }]) = Visit.appended w1 ∧
      weightNodeByCapacity "com.docker.swarm" (JenkinsWeight "com.docker.swarm" jenkinsSlave)
        (-5) (exampleNode2 [{ Config := jenkinsSlave }]) = Visit.appended w2 ∧
      w1.Weight ≤ w2.Weight ∧
      (rawScore "com.docker.swarm" jenkinsSlave (exampleNode1 [{ Config := jenkinsSlave }]) ≠
          rawScore "com.docker.swarm" jenkinsSlave (exampleNode2 [{ Config := jenkinsSlave }]) →
        [exampleNode1 [{ Config := jenkinsSlave }],
            exampleNode2 [{ Config := jenkinsSlave }]].Sublist
          [exampleNode1 [{ Config := jenkinsSlave }],
            exampleNode2 [{ Config := jenkinsSlave }]] ∧
        ¬ [exampleNode2 [{ Config := jenkinsSlave }],
            exampleNode1 [{ Config := jenkinsSlave }]].Sublist
          [exampleNode1 [{ Config := jenkinsSlave }],
            exampleNode2 [{ Config := jenkinsSlave }]]) :=
  ⟨by decide, by decide, by decide, by decide, by decide,
   more_free_cpu_ranks_first (BinpackPlacementStrategy.RankAndSort 10 insertionSort)
    (SpreadPlacementStrategy.RankAndSort insertionSort) insertionSort "com.docker.swarm"
    jenkinsSlave
    [exampleNode2 [{ Config := jenkinsSlave }], exampleNode1 [{ Config := jenkinsSlave }]]
    [exampleNode1 [{ Config := jenkinsSlave }], exampleNode2 [{ Config := jenkinsSlave }]]
    (exampleNode1 [{ Config := jenkinsSlave }]) (exampleNode2 [{ Config := jenkinsSlave }])
    insertionSort_contract (by decide) (by decide) (by decide) (by decide)
    (by decide) (by decide) (by decide) (by decide) (by decide) (by decide) (by decide)
    (by decide) (by decide)⟩

/-! ## The comparator as an order -/

theorem sortKey_eq_iff (a b : weightedNode) :
    sortKey a = sortKey b ↔
      a.Weight = b.Weight ∧ a.Containers = b.Containers ∧
        freeCpus a.Node = freeCpus b.Node ∧ freeMemory a.Node = freeMemory b.Node := by
  simp only [sortKey, Prod.mk.injEq]

theorem Less_irrefl (a : weightedNode) : a.Less a = false := by
  rw [Less_eq_false_iff]
  omega

theorem Less_asymm (a b : weightedNode) (h : a.Less b = true) : b.Less a = false := by
  rw [Less_iff] at h
  rw [Less_eq_false_iff]
  omega

theorem Less_trans (a b c : weightedNode) (hab : a.Less b = true) (hbc : b.Less c = true) :
    a.Less c = true := by
  rw [Less_iff] at *
  omega

theorem incomparable_iff (a b : weightedNode) :
    (a.Less b = false ∧ b.Less a = false) ↔ sortKey a = sortKey b := by
  rw [sortKey_eq_iff, Less_eq_false_iff, Less_eq_false_iff]
  omega

theorem Less_of_key_ne (a b : weightedNode) (h : sortKey a ≠ sortKey b) :
    (a.Less b = true ∧ b.Less a = false) ∨ (a.Less b = false ∧ b.Less a = true) := by
  rw [Ne, sortKey_eq_iff] at h
  rw [Less_iff, Less_iff, Less_eq_false_iff, Less_eq_false_iff]
  omega

/-- Two `Less`-sorted arrangements of the same scored nodes are equal when
the keys are pairwise distinct. -/
theorem sorted_perm_unique (l₁ l₂ : weightedNodeList) (hp : l₁.Perm l₂)
    (hk : l₁.Pairwise (fun a b => sortKey a ≠ sortKey b))
    (h₁ : l₁.Pairwise (fun a b => b.Less a = false))
    (h₂ : l₂.Pairwise (fun a b => b.Less a = false)) : l₁ = l₂ := by
  have hk₂ : l₂.Pairwise (fun a b => sortKey a ≠ sortKey b) :=
    (hp.pairwise_iff (fun h => Ne.symm h)).mp hk
  have strict : ∀ l : weightedNodeList, l.Pairwise (fun a b => sortKey a ≠ sortKey b) →
      l.Pairwise (fun a b => b.Less a = false) → l.Pairwise (fun a b => a.Less b = true) := by
    intro l hkl hsl
    refine (hkl.and hsl).imp ?_
    intro a b hab
    rcases Less_of_key_ne a b hab.1 with h | h
    · exact h.1
    · rw [h.2] at hab
      exact absurd hab.2 (by decide)
  haveI : IsAntisymm weightedNode (fun a b => a.Less b = true) :=
    ⟨fun a b hab hba => by rw [Less_asymm a b hab] at hba; cases hba⟩
  exact List.eq_of_perm_of_sorted hp (strict l₁ hk h₁) (strict l₂ hk₂ h₂)

theorem sort_unique (sort₁ sort₂ : weightedNodeList → weightedNodeList)
    (hs₁ : SortContract sort₁) (hs₂ : SortContract sort₂) (ws₁ ws₂ : weightedNodeList)
    (hp : ws₁.Perm ws₂) (hk : ws₁.Pairwise (fun a b => sortKey a ≠ sortKey b)) :
    sort₁ ws₁ = sort₂ ws₂ :=
  sorted_perm_unique (sort₁ ws₁) (sort₂ ws₂)
    (((hs₁.perm ws₁).trans hp).trans (hs₂.perm ws₂).symm)
    (((hs₁.perm ws₁).pairwise_iff (fun h => Ne.symm h)).mpr hk)
    (hs₁.pairwise ws₁) (hs₂.pairwise ws₂)

/-- C19: on every list of scored nodes `weightedNodeList.Less` is a strict
weak ordering: `Less(i, i)` is false, `Less(i, j)` excludes `Less(j, i)`,
it is transitive, incomparability (neither `Less(i, j)` nor `Less(j, i)`) is
transitive, and two elements are incomparable exactly when they agree on the
four keys score, tie-break count, free CPU and free memory. -/
theorem Less_strict_weak_ordering (n : weightedNodeList) :
    (∀ i, n.Less i i = false) ∧
    (∀ i j, n.Less i j = true → n.Less j i = false) ∧
    (∀ i j k, n.Less i j = true → n.Less j k = true → n.Less i k = true) ∧
    (∀ i j k, (n.Less i j = false ∧ n.Less j i = false) →
      (n.Less j k = false ∧ n.Less k j = false) →
        (n.Less i k = false ∧ n.Less k i = false)) ∧
    (∀ i j, (n.Less i j = false ∧ n.Less j i = false) ↔
      sortKey (n.get i) = sortKey (n.get j)) := by
  refine ⟨?_, ?_, ?_, ?_, ?_⟩
  · intro i
    exact Less_irrefl _
  · intro i j h
    exact Less_asymm _ _ h
  · intro i j k hij hjk
    exact Less_trans _ _ _ hij hjk
  · intro i j k hij hjk
    have h1 := (incomparable_iff (n.get i) (n.get j)).mp hij
    have h2 := (incomparable_iff (n.get j) (n.get k)).mp hjk
    exact (incomparable_iff (n.get i) (n.get k)).mpr (h1.trans h2)
  · intro i j
    exact incomparable_iff _ _

/-- C19, on the list of Node1 (score -4), its twin under another identifier
and Node2 (score -1): the twins are incomparable, and `Less` orders Node1
before Node2 and not the reverse. -/
theorem Less_strict_weak_ordering_witness :
    sortKey scoredNode1 = sortKey scoredTwin ∧
    weightedNodeList.Less [scoredNode1, scoredTwin, scoredNode2] ⟨2, by decide⟩ ⟨0, by decide⟩ =
      false :=
  ⟨((Less_strict_weak_ordering [scoredNode1, scoredTwin, scoredNode2]).2.2.2.2
      ⟨0, by decide⟩ ⟨1, by decide⟩).mp ⟨by decide, by decide⟩,
   (Less_strict_weak_ordering [scoredNode1, scoredTwin, scoredNode2]).2.1
      ⟨0, by decide⟩ ⟨2, by decide⟩ (by decide)⟩

/-- C13, as stated, fails: Node1 and a node with the same figures under
another identifier are scored to two distinct elements with equal keys;
neither is `Less` than the other, and both arrangements are sorted. -/
theorem Less_not_total_on_twins :
    weightNodesByCapacity "com.docker.swarm" jenkinsSlave
        [exampleNode1 [{ Config := jenkinsSlave }], twinNode] (-5) =
      Outcome.ok [scoredNode1, scoredTwin] ∧
    scoredNode1 ≠ scoredTwin ∧
    scoredNode1.Less scoredTwin = false ∧
    scoredTwin.Less scoredNode1 = false ∧
    List.Chain' (fun a b => b.Less a = false) [scoredNode1, scoredTwin] ∧
    List.Chain' (fun a b => b.Less a = false) [scoredTwin, scoredNode1] :=
  ⟨by decide, by decide, by decide, by decide,
    List.chain'_pair.mpr (by decide), List.chain'_pair.mpr (by decide)⟩

/-- C13, amended: `weightedNodeList.Less` is total up to equality of the
four keys. Of two scored nodes that differ in one of the keys exactly one is
`Less` than the other; of two that agree on all four neither is; and any two
sorts meeting the contract of `sort.Sort` return the same list on scored nodes
with pairwise distinct key tuples. -/
theorem Less_total_on_distinct_keys :
    (∀ a b : weightedNode, sortKey a ≠ sortKey b →
      (a.Less b = true ∧ b.Less a = false) ∨ (a.Less b = false ∧ b.Less a = true)) ∧
    (∀ a b : weightedNode, sortKey a = sortKey b → a.Less b = false ∧ b.Less a = false) ∧
    (∀ (sort₁ sort₂ : weightedNodeList → weightedNodeList) (ws : weightedNodeList),
      SortContract sort₁ → SortContract sort₂ →
      ws.Pairwise (fun a b => sortKey a ≠ sortKey b) → sort₁ ws = sort₂ ws) :=
  ⟨Less_of_key_ne, fun a b h => (incomparable_iff a b).mpr h,
    fun sort₁ sort₂ ws hs₁ hs₂ hk => sort_unique sort₁ sort₂ hs₁ hs₂ ws ws (List.Perm.refl ws) hk⟩

/-- C13, amended, at the scored Node1 (score -4) and Node2 (score -1) of the
second example scenario: exactly one of them is `Less` than the other. -/
theorem Less_total_on_distinct_keys_witness :
    (scoredNode1.Less scoredNode2 = true ∧ scoredNode2.Less scoredNode1 = false) ∨
    (scoredNode1.Less scoredNode2 = false ∧ scoredNode2.Less scoredNode1 = true) :=
  Less_total_on_distinct_keys.1 scoredNode1 scoredNode2 (by decide)

/-! ## The utilisation scores of `weighNodes` -/

theorem reverseThenSort_contract : SortContract reverseThenSort where
  perm := fun l => (insertionSort_contract.perm l.reverse).trans (List.reverse_perm l)
  sorted := fun l => insertionSort_contract.sorted l.reverse

theorem weighNodes_mem (config : ContainerConfig) (nodes : List Node) (hf : Int)
    (ws : weightedNodeList) (h : weighNodes config nodes hf = Outcome.ok ws)
    (w : weightedNode) (hw : w ∈ ws) :
    w.Node ∈ nodes ∧ survivesWeigh config w.Node = true ∧
    w = { Node := w.Node
          Weight := wrap64 (wrap64 (cpuScoreOf config w.Node + memoryScoreOf config w.Node) +
            wrap64 (hf * w.Node.HealthIndicator))
          Containers := (w.Node.Containers.length : Int) } := by
  obtain ⟨hws, _⟩ := (weighNodes_ok_iff config nodes hf ws).mp h
  rw [hws] at hw
  obtain ⟨hn, hb⟩ := kept_mem _ (weighNode_appended_node config hf) nodes w hw
  rw [weighNode_eq] at hb
  split_ifs at hb with hs
  exact ⟨hn, hs, (Visit.appended.inj hb).symm⟩

theorem survivesWeigh_iff (config : ContainerConfig) (node : Node) :
    survivesWeigh config node = true ↔
      feasible config node ∧ cpuScoreOf config node ≤ 100 ∧ memoryScoreOf config node ≤ 100 := by
  simp only [survivesWeigh, decide_eq_true_eq]

/-- The utilisation score `(used + requested) * 100 / total` as `weighNodes`
computes it, when nothing overflows and the request is positive and fits. -/
theorem utilisation_score (used requested total : Int) (hreq : 0 < requested)
    (hfit : requested ≤ total) (h1 : isInt64 (used + requested))
    (h2 : isInt64 ((used + requested) * 100)) :
    wrap64 (Int.tdiv (wrap64 (wrap64 (used + requested) * 100)) total) =
      Int.tdiv ((used + requested) * 100) total := by
  rw [wrap64_of_isInt64 _ h1, wrap64_of_isInt64 _ h2]
  exact wrap64_of_isInt64 _ (isInt64_tdiv _ _ h2 (by omega))

theorem cpuScoreOf_eq_spec (config : ContainerConfig) (node : Node)
    (hreq : 0 ≤ config.HostConfig.CPUShares) (hfit : config.HostConfig.CPUShares ≤ node.TotalCpus)
    (h1 : isInt64 (node.UsedCpus + config.HostConfig.CPUShares))
    (h2 : isInt64 ((node.UsedCpus + config.HostConfig.CPUShares) * 100)) :
    cpuScoreOf config node = specCpuScore config node := by
  unfold cpuScoreOf specCpuScore
  by_cases h0 : config.HostConfig.CPUShares = 0
  · rw [if_neg (by omega), if_pos h0]
  · rw [if_pos (by omega), if_neg h0]
    exact utilisation_score _ _ _ (by omega) hfit h1 h2

theorem memoryScoreOf_eq_spec (config : ContainerConfig) (node : Node)
    (hreq : 0 ≤ config.HostConfig.Memory) (hfit : config.HostConfig.Memory ≤ node.TotalMemory)
    (h1 : isInt64 (node.UsedMemory + config.HostConfig.Memory))
    (h2 : isInt64 ((node.UsedMemory + config.HostConfig.Memory) * 100)) :
    memoryScoreOf config node = specMemoryScore config node := by
  unfold memoryScoreOf specMemoryScore
  by_cases h0 : config.HostConfig.Memory = 0
  · rw [if_neg (by omega), if_pos h0]
  · rw [if_pos (by omega), if_neg h0]
    exact utilisation_score _ _ _ (by omega) hfit h1 h2

/-- A truncated percentage of at most 100 bounds the use by 101 % of the
capacity, and by the capacity itself when the capacity is at most 100. -/
theorem percent_le_100 (x total : Int) (hx : 0 ≤ x) (ht : 0 < total)
    (h : Int.tdiv (x * 100) total ≤ 100) :
    x * 100 < 101 * total ∧ (total ≤ 100 → x ≤ total) := by
  rw [tdiv_of_nonneg _ _ (by omega) ht] at h
  have hlt : x * 100 < 101 * total :=
    Int.lt_mul_of_ediv_lt ht (show x * 100 / total < 101 by omega)
  exact ⟨hlt, fun _ => by omega⟩

/-- C11, as stated, fails: a request of 4 CPU shares on a node with 200
CPUs of which 197 are used scores `201 * 100 / 200 = 100` after truncation,
so the node is returned although `197 + 4 > 200`. -/
theorem weighNodes_accepts_overcommit :
    weighNodes (mkConfig [] 4 0) [largeNode] 10 =
      Outcome.ok [{ Node := largeNode, Weight := 200, Containers := 0 }] ∧
    cpuScoreOf (mkConfig [] 4 0) largeNode = 100 ∧
    0 ≤ largeNode.UsedCpus ∧ 0 ≤ largeNode.UsedMemory ∧
    weighedWithoutOverflow (mkConfig [] 4 0) 10 largeNode ∧
    ¬ (largeNode.UsedCpus + (mkConfig [] 4 0).HostConfig.CPUShares ≤ largeNode.TotalCpus) := by
  decide

/-- C11, amended: for every node returned by `weighNodes` with non-negative
usage and no `int64` overflow, a positive CPU request leaves the truncated
percentage `(usedCPU + cpuShares) * 100 / totalCPU` at most 100, that is
`(usedCPU + cpuShares) * 100 < 101 * totalCPU`, which gives
`usedCPU + cpuShares <= totalCPU` when `totalCPU <= 100`; and likewise for a
positive memory request. -/
theorem weighNodes_utilisation_bound (config : ContainerConfig) (nodes : List Node) (hf : Int)
    (ws : weightedNodeList) (w : weightedNode)
    (h : weighNodes config nodes hf = Outcome.ok ws) (hw : w ∈ ws)
    (hcpu0 : 0 ≤ w.Node.UsedCpus) (hmem0 : 0 ≤ w.Node.UsedMemory)
    (hcpu1 : isInt64 (w.Node.UsedCpus + config.HostConfig.CPUShares))
    (hcpu2 : isInt64 ((w.Node.UsedCpus + config.HostConfig.CPUShares) * 100))
    (hmem1 : isInt64 (w.Node.UsedMemory + config.HostConfig.Memory))
    (hmem2 : isInt64 ((w.Node.UsedMemory + config.HostConfig.Memory) * 100)) :
    (config.HostConfig.CPUShares > 0 →
      (w.Node.UsedCpus + config.HostConfig.CPUShares) * 100 < 101 * w.Node.TotalCpus ∧
      (w.Node.TotalCpus ≤ 100 →
        w.Node.UsedCpus + config.HostConfig.CPUShares ≤ w.Node.TotalCpus)) ∧
    (config.HostConfig.Memory > 0 →
      (w.Node.UsedMemory + config.HostConfig.Memory) * 100 < 101 * w.Node.TotalMemory ∧
      (w.Node.TotalMemory ≤ 100 →
        w.Node.UsedMemory + config.HostConfig.Memory ≤ w.Node.TotalMemory)) := by
  obtain ⟨_, hs, _⟩ := weighNodes_mem config nodes hf ws h w hw
  obtain ⟨⟨hfm, hfc⟩, hc, hm⟩ := (survivesWeigh_iff config w.Node).mp hs
  constructor
  · intro hpos
    unfold cpuScoreOf at hc
    rw [if_pos hpos, utilisation_score _ _ _ hpos hfc hcpu1 hcpu2] at hc
    exact percent_le_100 _ _ (by omega) (by omega) hc
  · intro hpos
    unfold memoryScoreOf at hm
    rw [if_pos hpos, utilisation_score _ _ _ hpos hfm hmem1 hmem2] at hm
    exact percent_le_100 _ _ (by omega) (by omega) hm

/-- C11, amended, at the first example scenario: Node1 is returned for a
request of 4 CPU shares and 40 bytes, and `2 + 4 <= 10`, `20 + 40 <= 100`. -/
theorem weighNodes_utilisation_bound_witness :
    ((mkConfig [] 4 40).HostConfig.CPUShares > 0 →
      ((exampleNode1 []).UsedCpus + (mkConfig [] 4 40).HostConfig.CPUShares) * 100 <
        101 * (exampleNode1 []).TotalCpus ∧
      ((exampleNode1 []).TotalCpus ≤ 100 →
        (exampleNode1 []).UsedCpus + (mkConfig [] 4 40).HostConfig.CPUShares ≤
          (exampleNode1 []).TotalCpus)) ∧
    ((mkConfig [] 4 40).HostConfig.Memory > 0 →
      ((exampleNode1 []).UsedMemory + (mkConfig [] 4 40).HostConfig.Memory) * 100 <
        101 * (exampleNode1 []).TotalMemory ∧
      ((exampleNode1 []).TotalMemory ≤ 100 →
        (exampleNode1 []).UsedMemory + (mkConfig [] 4 40).HostConfig.Memory ≤
          (exampleNode1 []).TotalMemory)) :=
  weighNodes_utilisation_bound (mkConfig [] 4 40) [exampleNode1 [], exampleNode2 []] 10
    [{ Node := exampleNode1 [], Weight := 120, Containers := 0 }]
    { Node := exampleNode1 [], Weight := 120, Containers := 0 }
    (by decide) (by decide) (by decide) (by decide) (by decide) (by decide) (by decide)
    (by decide)

/-- C12: when `weighNodes` returns a list, its nodes are the input nodes
that pass the capacity filter with both scores at most 100, in input order;
each element carries the score `cpuScore + memoryScore + healthFactor *
healthIndicator` of its node, computed in `int64`, and the number of
containers of its node as tie-break count; and for non-negative requests
and without overflow the two scores and the composite score are those of the
specification in unbounded integers. -/
theorem weighNodes_scores (config : ContainerConfig) (nodes : List Node) (hf : Int)
    (ws : weightedNodeList) (h : weighNodes config nodes hf = Outcome.ok ws) :
    ws.map (fun w => w.Node) = nodes.filter (survivesWeigh config) ∧
    (∀ n, survivesWeigh config n = true ↔
      feasible config n ∧ cpuScoreOf config n ≤ 100 ∧ memoryScoreOf config n ≤ 100) ∧
    (∀ w ∈ ws,
      w.Weight = wrap64 (wrap64 (cpuScoreOf config w.Node + memoryScoreOf config w.Node) +
        wrap64 (hf * w.Node.HealthIndicator)) ∧
      w.Containers = (w.Node.Containers.length : Int) ∧
      (0 ≤ config.HostConfig.CPUShares → 0 ≤ config.HostConfig.Memory →
        weighedWithoutOverflow config hf w.Node →
          cpuScoreOf config w.Node = specCpuScore config w.Node ∧
          memoryScoreOf config w.Node = specMemoryScore config w.Node ∧
          w.Weight = specCpuScore config w.Node + specMemoryScore config w.Node +
            hf * w.Node.HealthIndicator)) := by
  refine ⟨weighNodes_nodes config nodes hf ws h, survivesWeigh_iff config, ?_⟩
  intro w hw
  obtain ⟨_, hs, hweq⟩ := weighNodes_mem config nodes hf ws h w hw
  obtain ⟨⟨hfm, hfc⟩, _, _⟩ := (survivesWeigh_iff config w.Node).mp hs
  refine ⟨congrArg weightedNode.Weight hweq, congrArg weightedNode.Containers hweq, ?_⟩
  intro hc0 hm0 ⟨o1, o2, o3, o4, o5, o6, o7⟩
  have ec := cpuScoreOf_eq_spec config w.Node hc0 hfc o1 o2
  have em := memoryScoreOf_eq_spec config w.Node hm0 hfm o3 o4
  refine ⟨ec, em, ?_⟩
  have hW := congrArg weightedNode.Weight hweq
  simp only at hW
  rw [hW, ec, em, wrap64_of_isInt64 _ o5, wrap64_of_isInt64 _ o6, wrap64_of_isInt64 _ o7]

/-- C12, at the first example scenario: a request of 4 CPU shares and 40
bytes over Node1 and Node2 yields `[Node1]` with score `60 + 60 = 120` and
tie-break count 0; Node2 has CPU score 120 and is excluded. -/
theorem weighNodes_scores_witness :
    weighNodes (mkConfig [] 4 40) [exampleNode1 [], exampleNode2 []] 10 =
      Outcome.ok [{ Node := exampleNode1 [], Weight := 120, Containers := 0 }] ∧
    specCpuScore (mkConfig [] 4 40) (exampleNode1 []) = 60 ∧
    specMemoryScore (mkConfig [] 4 40) (exampleNode1 []) = 60 ∧
    cpuScoreOf (mkConfig [] 4 40) (exampleNode2 []) = 120 ∧
    [exampleNode1 []] =
      [exampleNode1 [], exampleNode2 []].filter (survivesWeigh (mkConfig [] 4 40)) ∧
    (120 : Int) = specCpuScore (mkConfig [] 4 40) (exampleNode1 []) +
      specMemoryScore (mkConfig [] 4 40) (exampleNode1 []) + 10 * (exampleNode1 []).HealthIndicator :=
  ⟨by decide, by decide, by decide, by decide,
   (weighNodes_scores (mkConfig [] 4 40) [exampleNode1 [], exampleNode2 []] 10
      [{ Node := exampleNode1 [], Weight := 120, Containers := 0 }] (by decide)).1,
   ((weighNodes_scores (mkConfig [] 4 40) [exampleNode1 [], exampleNode2 []] 10
      [{ Node := exampleNode1 [], Weight := 120, Containers := 0 }] (by decide)).2.2
      { Node := exampleNode1 [], Weight := 120, Containers := 0 } (by decide)).2.2
      (by decide) (by decide) (by decide) |>.2.2⟩

/-- C16: `weighNodes` never divides by zero. No iteration and no call
panics, whatever the workload and the nodes; and for a node that passes the
capacity filter, a positive CPU request makes the divisor `TotalCpus` at
least the request, hence positive, and a positive memory request does the
same for the divisor `TotalMemory`. -/
theorem weighNodes_never_divides_by_zero (config : ContainerConfig) (nodes : List Node)
    (hf : Int) :
    weighNodes config nodes hf ≠ Outcome.panic ∧
    (∀ node, weighNode config hf node ≠ Visit.panics) ∧
    (∀ node : Node,
      ¬ (node.TotalMemory < config.HostConfig.Memory ∨
        node.TotalCpus < config.HostConfig.CPUShares) →
      (config.HostConfig.CPUShares > 0 →
        node.TotalCpus ≥ config.HostConfig.CPUShares ∧ node.TotalCpus > 0 ∧
        int64Div (wrap64 (wrap64 (node.UsedCpus + config.HostConfig.CPUShares) * 100))
          node.TotalCpus ≠ none) ∧
      (config.HostConfig.Memory > 0 →
        node.TotalMemory ≥ config.HostConfig.Memory ∧ node.TotalMemory > 0 ∧
        int64Div (wrap64 (wrap64 (node.UsedMemory + config.HostConfig.Memory) * 100))
          node.TotalMemory ≠ none)) := by
  refine ⟨weighNodes_ne_panic config nodes hf, weighNode_ne_panics config hf, ?_⟩
  intro node hfe
  constructor
  · intro hpos
    refine ⟨by omega, by omega, ?_⟩
    rw [Ne, int64Div_eq_none]
    omega
  · intro hpos
    refine ⟨by omega, by omega, ?_⟩
    rw [Ne, int64Div_eq_none]
    omega

/-- C16, at a node without any capacity: a request of 4 CPU shares and 40
bytes skips it, and a request without reservation scores it 200 without
dividing. -/
theorem weighNodes_never_divides_by_zero_witness :
    weighNodes (mkConfig [] 4 40) [emptyNode] 10 ≠ Outcome.panic ∧
    weighNodes (mkConfig [] 4 40) [emptyNode] 10 = Outcome.err Error.ErrNoResourcesAvailable ∧
    weighNodes plainConfig [emptyNode] 10 =
      Outcome.ok [{ Node := emptyNode, Weight := 200, Containers := 0 }] :=
  ⟨(weighNodes_never_divides_by_zero (mkConfig [] 4 40) [emptyNode] 10).1, by decide, by decide⟩

/-! ## The divisor `totalWeight` -/

/-- C14: at a class-marked workload reserving 4 CPU shares and no memory,
the call reaches the specialized scoring with `JenkinsWeight = 0`; on Node1
without containers the divisor `totalWeight` is 0, the raw score is undefined
and `weightNodesByCapacity` panics. -/
theorem specialized_divisor_zero :
    specializedPath (mkConfig [(jenkinsIdLabel, "1")] 4 0) ∧
    JenkinsWeight "com.docker.swarm" (mkConfig [(jenkinsIdLabel, "1")] 4 0) = 0 ∧
    totalWeight "com.docker.swarm"
      (JenkinsWeight "com.docker.swarm" (mkConfig [(jenkinsIdLabel, "1")] 4 0))
      (exampleNode1 []) = 0 ∧
    rawScore "com.docker.swarm" (mkConfig [(jenkinsIdLabel, "1")] 4 0) (exampleNode1 []) = none ∧
    weightNodesByCapacity "com.docker.swarm" (mkConfig [(jenkinsIdLabel, "1")] 4 0)
      [exampleNode1 []] (-5) = Outcome.panic := by
  decide

theorem JenkinsWeight_pos_iff (ns : String) (c : ContainerConfig) :
    1 ≤ JenkinsWeight ns c ↔
      (c.Labels.lookup jenkinsIdLabel).isSome = true ∧
        c.HostConfig.CPUShares ≤ 0 ∧ c.HostConfig.Memory ≤ 0 := by
  constructor
  · intro h
    by_contra hn
    have hc : ¬ (c.Labels.lookup jenkinsIdLabel).isSome = true ∨
        c.HostConfig.CPUShares > 0 ∨ c.HostConfig.Memory > 0 := by
      by_cases h1 : (c.Labels.lookup jenkinsIdLabel).isSome = true
      · right
        simp only [h1, true_and] at hn
        omega
      · exact Or.inl h1
    have h0 : JenkinsWeight ns c = 0 := by
      simp only [JenkinsWeight, if_pos hc]
    omega
  · rintro ⟨h1, h2, h3⟩
    exact JenkinsWeight_pos ns c h1 h2 h3

/-- C15, as stated, fails: for the class-marked, reservation-free workload
of weight 1 and Node1 running one class-marked container of weight
9223372036854775807, the sum `1 + 9223372036854775807` overflows and
`totalWeight` is `-9223372036854775808`, below 1 and below the incoming
weight. -/
theorem totalWeight_wraps_below_one :
    (jenkinsSlave.Labels.lookup jenkinsIdLabel).isSome = true ∧
    jenkinsSlave.HostConfig.CPUShares ≤ 0 ∧ jenkinsSlave.HostConfig.Memory ≤ 0 ∧
    JenkinsWeight "com.docker.swarm" jenkinsSlave = 1 ∧
    JenkinsWeight "com.docker.swarm" (weightedSlave "9223372036854775807") =
      9223372036854775807 ∧
    totalWeight "com.docker.swarm" (JenkinsWeight "com.docker.swarm" jenkinsSlave) heavyNode =
      -9223372036854775808 ∧
    ¬ (1 ≤ totalWeight "com.docker.swarm" (JenkinsWeight "com.docker.swarm" jenkinsSlave)
      heavyNode) ∧
    ¬ (JenkinsWeight "com.docker.swarm" jenkinsSlave ≤
      totalWeight "com.docker.swarm" (JenkinsWeight "com.docker.swarm" jenkinsSlave)
        heavyNode) := by
  decide

/-- C15, amended: `JenkinsWeight` is never negative, and it is at least 1
exactly when the configuration is class-marked with `CPUShares <= 0` and
`Memory <= 0`; consequently, for a class-marked workload with no
reservation and a node whose weight sum `JenkinsWeight(workload) + Σ
JenkinsWeight(container)` fits in the 64-bit `int`, `totalWeight` in
`weightNodesByCapacity` is that sum, is at least 1 and is at least the weight
of the incoming workload. -/
theorem JenkinsWeight_and_totalWeight_bounds (ns : String) :
    (∀ c : ContainerConfig, 0 ≤ JenkinsWeight ns c) ∧
    (∀ c : ContainerConfig, 1 ≤ JenkinsWeight ns c ↔
      (c.Labels.lookup jenkinsIdLabel).isSome = true ∧
        c.HostConfig.CPUShares ≤ 0 ∧ c.HostConfig.Memory ≤ 0) ∧
    (∀ (config : ContainerConfig) (node : Node),
      (config.Labels.lookup jenkinsIdLabel).isSome = true →
      config.HostConfig.CPUShares ≤ 0 → config.HostConfig.Memory ≤ 0 →
      isInt64 (weightSum ns config node) →
        totalWeight ns (JenkinsWeight ns config) node = weightSum ns config node ∧
        1 ≤ totalWeight ns (JenkinsWeight ns config) node ∧
        JenkinsWeight ns config ≤ totalWeight ns (JenkinsWeight ns config) node) := by
  refine ⟨JenkinsWeight_nonneg ns, JenkinsWeight_pos_iff ns, ?_⟩
  intro config node hmark hcpu hmem hsum
  have e := totalWeight_eq_weightSum ns config node hsum
  have h1 := weightSum_pos ns config node hmark hcpu hmem
  have h2 := sum_JenkinsWeight_nonneg ns node.Containers
  refine ⟨e, by omega, ?_⟩
  rw [e]
  unfold weightSum
  omega

/-- C15, amended, at the second example scenario: the incoming weight is 1
and `totalWeight` is 2 on Node1 running one class-marked container. -/
theorem JenkinsWeight_and_totalWeight_bounds_witness :
    totalWeight "com.docker.swarm" (JenkinsWeight "com.docker.swarm" jenkinsSlave)
        (exampleNode1 [{ Config := jenkinsSlave }]) =
      weightSum "com.docker.swarm" jenkinsSlave (exampleNode1 [{ Config := jenkinsSlave }]) ∧
    1 ≤ totalWeight "com.docker.swarm" (JenkinsWeight "com.docker.swarm" jenkinsSlave)
      (exampleNode1 [{ Config := jenkinsSlave }]) ∧
    JenkinsWeight "com.docker.swarm" jenkinsSlave ≤
      totalWeight "com.docker.swarm" (JenkinsWeight "com.docker.swarm" jenkinsSlave)
        (exampleNode1 [{ Config := jenkinsSlave }]) :=
  (JenkinsWeight_and_totalWeight_bounds "com.docker.swarm").2.2 jenkinsSlave
    (exampleNode1 [{ Config := jenkinsSlave }]) (by decide) (by decide) (by decide) (by decide)

/-! ## The raw score and the divisor -/

theorem ediv_eq_zero_iff_lt (a b : Int) (ha : 0 ≤ a) (hb : 0 < b) : a / b = 0 ↔ a < b := by
  constructor
  · intro h
    have := Int.lt_mul_of_ediv_lt hb (show a / b < 1 by omega)
    omega
  · intro h
    exact Int.ediv_eq_zero_of_lt ha h

theorem tdiv_eq_zero_iff_abs_lt (a b : Int) (hb : 0 < b) : Int.tdiv a b = 0 ↔ |a| < b := by
  rcases le_or_lt 0 a with ha | ha
  · rw [tdiv_of_nonneg a b ha hb, abs_of_nonneg ha]
    exact ediv_eq_zero_iff_lt a b ha hb
  · rw [tdiv_of_nonpos a b (by omega) hb, abs_of_neg ha, neg_eq_zero]
    exact ediv_eq_zero_iff_lt (-a) b (by omega) hb

theorem abs_wrap64_neg (f : Int) (hf : isInt64 f) : |wrap64 (-f)| = |f| := by
  unfold isInt64 at hf
  by_cases h : f = -(2 ^ 63)
  · have e : wrap64 (-f) = f := by
      unfold wrap64
      omega
    rw [e]
  · have e : wrap64 (-f) = -f := by
      unfold wrap64
      omega
    rw [e, abs_neg]

theorem isInt64_freeCpus (node : Node) : isInt64 (freeCpus node) := isInt64_wrap64 _

/-- The raw score for a positive divisor: no panic, and the quotient needs
no reduction. -/
theorem capacityScore_of_pos (node : Node) (tw : Int) (htw : 1 ≤ tw) :
    capacityScore node tw = some (Int.tdiv (wrap64 (-(freeCpus node))) tw) := by
  unfold capacityScore freeCpus
  rw [int64Div_of_ne_zero _ _ (by omega),
    wrap64_of_isInt64 _ (isInt64_tdiv _ _ (isInt64_wrap64 _) (by omega))]

theorem survivesCapacity_iff_abs (ns : String) (config : ContainerConfig) (node : Node)
    (htw : 1 ≤ totalWeight ns (JenkinsWeight ns config) node) :
    survivesCapacity ns config node = true ↔
      totalWeight ns (JenkinsWeight ns config) node ≤ |freeCpus node| := by
  rw [survivesCapacity_iff]
  unfold rawScore
  rw [capacityScore_of_pos node _ htw]
  have hz := tdiv_eq_zero_iff_abs_lt (wrap64 (-(freeCpus node)))
    (totalWeight ns (JenkinsWeight ns config) node) (by omega)
  rw [abs_wrap64_neg (freeCpus node) (isInt64_freeCpus node)] at hz
  constructor
  · rintro ⟨s, hs, hne⟩
    cases hs
    by_contra hlt
    exact hne (hz.mpr (by omega))
  · intro hle
    refine ⟨_, rfl, ?_⟩
    intro h0
    have := hz.mp h0
    omega

/-- C17: in the specialized algorithm, for a node whose `totalWeight` is
at least 1, the raw score is not 0 (the node survives) exactly when the
absolute value of its free CPU `TotalCpus - UsedCpus`, as computed in
`int64`, is at least `totalWeight`; when the subtraction does not overflow
this is the absolute value of the unbounded difference; and a node whose free
CPU is non-negative but smaller than `totalWeight` (a fully used node
included) does not survive and is in no list that `weightNodesByCapacity`
returns. -/
theorem survives_iff_free_cpu_reaches_totalWeight (ns : String) (config : ContainerConfig)
    (node : Node) (htw : 1 ≤ totalWeight ns (JenkinsWeight ns config) node) :
    (survivesCapacity ns config node = true ↔
      totalWeight ns (JenkinsWeight ns config) node ≤ |freeCpus node|) ∧
    (isInt64 (node.TotalCpus - node.UsedCpus) →
      (survivesCapacity ns config node = true ↔
        totalWeight ns (JenkinsWeight ns config) node ≤ |node.TotalCpus - node.UsedCpus|)) ∧
    (0 ≤ freeCpus node → freeCpus node < totalWeight ns (JenkinsWeight ns config) node →
      survivesCapacity ns config node = false ∧
      rawScore ns config node = some 0 ∧
      ∀ (nodes : List Node) (hf : Int) (ws : weightedNodeList),
        weightNodesByCapacity ns config nodes hf = Outcome.ok ws →
          node ∉ ws.map (fun w => w.Node)) := by
  have key := survivesCapacity_iff_abs ns config node htw
  refine ⟨key, ?_, ?_⟩
  · intro hr
    have e : freeCpus node = node.TotalCpus - node.UsedCpus := wrap64_of_isInt64 _ hr
    rw [key, e]
  · intro h0 hlt
    have hns : survivesCapacity ns config node = false := by
      rw [← Bool.not_eq_true, key, abs_of_nonneg h0]
      omega
    refine ⟨hns, ?_, ?_⟩
    · have hr : rawScore ns config node =
          some (Int.tdiv (wrap64 (-(freeCpus node)))
            (totalWeight ns (JenkinsWeight ns config) node)) := capacityScore_of_pos node _ htw
      rw [hr]
      congr 1
      rw [tdiv_eq_zero_iff_abs_lt _ _ (by omega),
        abs_wrap64_neg (freeCpus node) (isInt64_freeCpus node),
        abs_of_nonneg h0]
      exact hlt
    · intro nodes hf ws hws hmem
      rw [weightNodesByCapacity_nodes ns config nodes hf ws hws] at hmem
      have := (List.mem_filter.mp hmem).2
      rw [hns] at this
      cases this

/-- C17, at the second example scenario: Node1 (8 free CPUs, `totalWeight`
2) survives, and the node with a single free CPU and `totalWeight` 2 does
not. -/
theorem survives_iff_free_cpu_reaches_totalWeight_witness :
    survivesCapacity "com.docker.swarm" jenkinsSlave
      (exampleNode1 [{ Config := jenkinsSlave }]) = true ∧
    (survivesCapacity "com.docker.swarm" jenkinsSlave fullNode = false ∧
      rawScore "com.docker.swarm" jenkinsSlave fullNode = some 0 ∧
      ∀ (nodes : List Node) (hf : Int) (ws : weightedNodeList),
        weightNodesByCapacity "com.docker.swarm" jenkinsSlave nodes hf = Outcome.ok ws →
          fullNode ∉ ws.map (fun w => w.Node)) :=
  ⟨(survives_iff_free_cpu_reaches_totalWeight "com.docker.swarm" jenkinsSlave
      (exampleNode1 [{ Config := jenkinsSlave }]) (by decide)).1.mpr (by decide),
   (survives_iff_free_cpu_reaches_totalWeight "com.docker.swarm" jenkinsSlave fullNode
      (by decide)).2.2 (by decide) (by decide)⟩

/-! ## More class weight, smaller magnitude -/

theorem tdiv_neg_weights (f w₁ w₂ : Int) (hf : 0 ≤ f) (h₁ : 1 ≤ w₁) (h₁₂ : w₁ ≤ w₂) :
    Int.tdiv (-f) w₁ ≤ Int.tdiv (-f) w₂ ∧ Int.tdiv (-f) w₂ ≤ 0 := by
  rw [tdiv_of_nonpos (-f) w₁ (by omega) (by omega), tdiv_of_nonpos (-f) w₂ (by omega) (by omega),
    neg_neg]
  have hq : 0 ≤ f / w₂ := Int.ediv_nonneg hf (by omega)
  have hle : f / w₂ ≤ f / w₁ := by
    apply Int.le_ediv_of_mul_le (by omega)
    calc f / w₂ * w₁ ≤ f / w₂ * w₂ := Int.mul_le_mul_of_nonneg_left h₁₂ hq
      _ ≤ f := Int.ediv_mul_le f (by omega)
  omega

theorem capacityScore_of_free_nonneg (node : Node) (tw : Int) (htw : 1 ≤ tw)
    (hf : 0 ≤ freeCpus node) :
    capacityScore node tw = some (Int.tdiv (-(freeCpus node)) tw) := by
  rw [capacityScore_of_pos node tw htw]
  have hr := isInt64_freeCpus node
  have e : wrap64 (-(freeCpus node)) = -(freeCpus node) := by
    apply wrap64_of_isInt64
    unfold isInt64 at *
    omega
  rw [e]

/-- C18, as stated, fails in its consequence: two nodes with 8 free CPUs
and the same health indicator 1844674407370955161, A carrying class weight 2
and B class weight 8, have raw scores `-4 <= -1 <= 0`; the composite score of
A overflows `int64` and wraps to `2^63 - 1`, so B, which carries more class
weight, gets the lower composite score `-2^63 + 2` and is ranked first. -/
theorem more_weight_lower_score_on_overflow :
    weightNodesByCapacity "com.docker.swarm" jenkinsSlave
        [extremeNode "A" [{ Config := jenkinsSlave }],
         extremeNode "B" [{ Config := weightedSlave "7" }]] (-5) =
      Outcome.ok
        [{ Node := extremeNode "A" [{ Config := jenkinsSlave }],
           Weight := 9223372036854775807, Containers := 2 },
         { Node := extremeNode "B" [{ Config := weightedSlave "7" }],
           Weight := -9223372036854775806, Containers := 8 }] ∧
    rawScore "com.docker.swarm" jenkinsSlave (extremeNode "A" [{ Config := jenkinsSlave }]) =
      some (-4) ∧
    rawScore "com.docker.swarm" jenkinsSlave (extremeNode "B" [{ Config := weightedSlave "7" }]) =
      some (-1) ∧
    JenkinsPlacementStrategy.RankAndSort (BinpackPlacementStrategy.RankAndSort 10 insertionSort)
        (SpreadPlacementStrategy.RankAndSort insertionSort) insertionSort "com.docker.swarm"
        jenkinsSlave
        [extremeNode "A" [{ Config := jenkinsSlave }],
         extremeNode "B" [{ Config := weightedSlave "7" }]] =
      Outcome.ok
        [extremeNode "B" [{ Config := weightedSlave "7" }],
         extremeNode "A" [{ Config := jenkinsSlave }]] := by
  decide

/-- C18, amended: dividing by `totalWeight` shrinks the magnitude of the
score. For nodes with the same free CPU `f >= 0` and divisors
`1 <= w1 <= w2`, the raw scores `(-f) / w` computed by
`weightNodesByCapacity` satisfy `rawScore(f, w1) <= rawScore(f, w2) <= 0`;
so of two nodes with equal free CPU and equal health that are scored
without `int64` overflow, the one carrying more class weight never gets a
lower composite score. -/
theorem more_weight_never_lower_score :
    (∀ (n₁ n₂ : Node) (w₁ w₂ : Int),
      freeCpus n₁ = freeCpus n₂ → 0 ≤ freeCpus n₁ → 1 ≤ w₁ → w₁ ≤ w₂ →
        capacityScore n₁ w₁ = some (Int.tdiv (-(freeCpus n₁)) w₁) ∧
        capacityScore n₂ w₂ = some (Int.tdiv (-(freeCpus n₂)) w₂) ∧
        Int.tdiv (-(freeCpus n₁)) w₁ ≤ Int.tdiv (-(freeCpus n₂)) w₂ ∧
        Int.tdiv (-(freeCpus n₂)) w₂ ≤ 0) ∧
    (∀ (ns : String) (config : ContainerConfig) (hf : Int) (n₁ n₂ : Node)
      (s₁ s₂ : weightedNode),
      n₁.TotalCpus - n₁.UsedCpus = n₂.TotalCpus - n₂.UsedCpus →
      0 ≤ n₁.TotalCpus - n₁.UsedCpus →
      n₁.HealthIndicator = n₂.HealthIndicator →
      1 ≤ weightSum ns config n₁ → weightSum ns config n₁ ≤ weightSum ns config n₂ →
      scoredWithoutOverflow ns config hf n₁ → scoredWithoutOverflow ns config hf n₂ →
      weightNodeByCapacity ns (JenkinsWeight ns config) hf n₁ = Visit.appended s₁ →
      weightNodeByCapacity ns (JenkinsWeight ns config) hf n₂ = Visit.appended s₂ →
        s₁.Containers ≤ s₂.Containers ∧ s₁.Weight ≤ s₂.Weight) := by
  constructor
  · intro n₁ n₂ w₁ w₂ hfree hf0 h₁ h₁₂
    have hb := tdiv_neg_weights (freeCpus n₁) w₁ w₂ hf0 h₁ h₁₂
    refine ⟨capacityScore_of_free_nonneg n₁ w₁ h₁ hf0,
      capacityScore_of_free_nonneg n₂ w₂ (by omega) (hfree ▸ hf0), ?_, ?_⟩
    · rw [← hfree]
      exact hb.1
    · rw [← hfree]
      exact hb.2
  · intro ns config hf n₁ n₂ s₁ s₂ hfree hf0 hhealth h₁ h₁₂ ho₁ ho₂ hs₁ hs₂
    obtain ⟨_, _, b₁⟩ := weightNodeByCapacity_of_scoredWithoutOverflow ns config hf n₁ h₁ ho₁
    obtain ⟨_, _, b₂⟩ :=
      weightNodeByCapacity_of_scoredWithoutOverflow ns config hf n₂ (by omega) ho₂
    rw [hs₁] at b₁
    rw [hs₂] at b₂
    split_ifs at b₁ with z₁
    split_ifs at b₂ with z₂
    have e₁ := Visit.appended.inj b₁
    have e₂ := Visit.appended.inj b₂
    have hb := tdiv_neg_weights (n₁.TotalCpus - n₁.UsedCpus) _ _ hf0 h₁ h₁₂
    rw [e₁, e₂]
    simp only
    rw [← hfree, ← hhealth]
    exact ⟨h₁₂, by omega⟩

/-- C18, amended, at two nodes with 8 free CPUs and health 0, one with
class weight 2 and one with class weight 8: the raw scores are `-4` and
`-1`, and so are the composite scores. -/
theorem more_weight_never_lower_score_witness :
    (capacityScore (exampleNode1 [{ Config := jenkinsSlave }]) 2 =
        some (Int.tdiv (-(freeCpus (exampleNode1 [{ Config := jenkinsSlave }]))) 2) ∧
      capacityScore (exampleNode1 [{ Config := weightedSlave "7" }]) 8 =
        some (Int.tdiv (-(freeCpus (exampleNode1 [{ Config := weightedSlave "7" }]))) 8) ∧
      Int.tdiv (-(freeCpus (exampleNode1 [{ Config := jenkinsSlave }]))) 2 ≤
        Int.tdiv (-(freeCpus (exampleNode1 [{ Config := weightedSlave "7" }]))) 8 ∧
      Int.tdiv (-(freeCpus (exampleNode1 [{ Config := weightedSlave "7" }]))) 8 ≤ 0) ∧
    ((2 : Int) ≤ 8 ∧ (-4 : Int) ≤ -1) :=
  ⟨more_weight_never_lower_score.1 (exampleNode1 [{ Config := jenkinsSlave }])
      (exampleNode1 [{ Config := weightedSlave "7" }]) 2 8
      (by decide) (by decide) (by decide) (by decide),
   more_weight_never_lower_score.2 "com.docker.swarm" jenkinsSlave (-5)
      (exampleNode1 [{ Config := jenkinsSlave }]) (exampleNode1 [{ Config := weightedSlave "7" }])
      { Node := exampleNode1 [{ Config := jenkinsSlave }], Weight := -4, Containers := 2 }
      { Node := exampleNode1 [{ Config := weightedSlave "7" }], Weight := -1, Containers := 8 }
      (by decide) (by decide) (by decide) (by decide) (by decide) (by decide) (by decide)
      (by decide) (by decide)⟩

/-! ## Independence of the input order -/

theorem weightNodesByCapacity_perm_ok (ns : String) (config : ContainerConfig)
    (nodes₁ nodes₂ : List Node) (hf : Int) (hp : nodes₁.Perm nodes₂) (ws₁ : weightedNodeList)
    (h : weightNodesByCapacity ns config nodes₁ hf = Outcome.ok ws₁) :
    ∃ ws₂, weightNodesByCapacity ns config nodes₂ hf = Outcome.ok ws₂ ∧ ws₁.Perm ws₂ := by
  obtain ⟨hdiv, hws, hne⟩ := (weightNodesByCapacity_ok_iff ns config nodes₁ hf ws₁).mp h
  have hperm : ws₁.Perm (nodes₂.filterMap
      (fun n => (weightNodeByCapacity ns (JenkinsWeight ns config) hf n).kept)) := by
    rw [hws]
    exact hp.filterMap _
  refine ⟨_, (weightNodesByCapacity_ok_iff ns config nodes₂ hf _).mpr ⟨?_, rfl, ?_⟩, hperm⟩
  · intro n hn
    exact hdiv n (hp.mem_iff.mpr hn)
  · intro hnil
    rw [hnil] at hperm
    exact hne hperm.eq_nil

theorem weightNodesByCapacity_perm_err (ns : String) (config : ContainerConfig)
    (nodes₁ nodes₂ : List Node) (hf : Int) (hp : nodes₁.Perm nodes₂) (e : Error)
    (h : weightNodesByCapacity ns config nodes₁ hf = Outcome.err e) :
    weightNodesByCapacity ns config nodes₂ hf = Outcome.err e := by
  rw [weightNodesByCapacity_err_iff] at *
  intro n hn
  exact h n (hp.mem_iff.mpr hn)

theorem weightNodesByCapacity_perm_panic (ns : String) (config : ContainerConfig)
    (nodes₁ nodes₂ : List Node) (hf : Int) (hp : nodes₁.Perm nodes₂)
    (h : weightNodesByCapacity ns config nodes₁ hf = Outcome.panic) :
    weightNodesByCapacity ns config nodes₂ hf = Outcome.panic := by
  cases h₂ : weightNodesByCapacity ns config nodes₂ hf with
  | panic => rfl
  | err e =>
    rw [weightNodesByCapacity_perm_err ns config nodes₂ nodes₁ hf hp.symm e h₂] at h
    cases h
  | ok ws₂ =>
    obtain ⟨ws₁, h₁, _⟩ := weightNodesByCapacity_perm_ok ns config nodes₂ nodes₁ hf hp.symm ws₂ h₂
    rw [h₁] at h
    cases h

/-- C20: for a class-marked, reservation-free workload and two node lists
that are permutations of each other, if the scored survivors have pairwise
distinct key tuples (score, tie-break count, free CPU, free memory), then
`RankAndSort` gives the same outcome for both lists, the same ordered list
or the same failure, whichever sorts meeting the contract of `sort.Sort` are
used; in particular it returns a list for one exactly when it does for the
other. -/
theorem RankAndSort_independent_of_input_order (binpack spread : Ranker)
    (sort₁ sort₂ : weightedNodeList → weightedNodeList) (ns : String)
    (config : ContainerConfig) (nodes₁ nodes₂ : List Node)
    (hmark : (config.Labels.lookup jenkinsIdLabel).isSome)
    (hcpu : config.HostConfig.CPUShares ≤ 0) (hmem : config.HostConfig.Memory ≤ 0)
    (hs₁ : SortContract sort₁) (hs₂ : SortContract sort₂) (hp : nodes₁.Perm nodes₂)
    (hk : ∀ ws, weightNodesByCapacity ns config nodes₁ (-5) = Outcome.ok ws →
      ws.Pairwise (fun a b => sortKey a ≠ sortKey b)) :
    JenkinsPlacementStrategy.RankAndSort binpack spread sort₁ ns config nodes₁ =
      JenkinsPlacementStrategy.RankAndSort binpack spread sort₂ ns config nodes₂ ∧
    ((∃ out, JenkinsPlacementStrategy.RankAndSort binpack spread sort₁ ns config nodes₁ =
        Outcome.ok out) ↔
      (∃ out, JenkinsPlacementStrategy.RankAndSort binpack spread sort₂ ns config nodes₂ =
        Outcome.ok out)) := by
  have hres : ¬ (config.HostConfig.CPUShares > 0 ∧ config.HostConfig.Memory > 0) :=
    fun hboth => absurd hboth.2 (not_lt.mpr hmem)
  have hpath : specializedPath config := ⟨hres, hmark⟩
  have _ := hcpu
  have heq : JenkinsPlacementStrategy.RankAndSort binpack spread sort₁ ns config nodes₁ =
      JenkinsPlacementStrategy.RankAndSort binpack spread sort₂ ns config nodes₂ := by
    rw [RankAndSort_specialized binpack spread sort₁ ns config nodes₁ hpath,
      RankAndSort_specialized binpack spread sort₂ ns config nodes₂ hpath]
    cases h₁ : weightNodesByCapacity ns config nodes₁ (-5) with
    | panic => rw [weightNodesByCapacity_perm_panic ns config nodes₁ nodes₂ (-5) hp h₁]
    | err e => rw [weightNodesByCapacity_perm_err ns config nodes₁ nodes₂ (-5) hp e h₁]
    | ok ws₁ =>
      obtain ⟨ws₂, h₂, hperm⟩ :=
        weightNodesByCapacity_perm_ok ns config nodes₁ nodes₂ (-5) hp ws₁ h₁
      rw [h₂]
      simp only
      rw [sort_unique sort₁ sort₂ hs₁ hs₂ ws₁ ws₂ hperm (hk ws₁ h₁)]
  exact ⟨heq, by rw [heq]⟩

/-- C20, at the second example scenario: the lists `[Node1, Node2]` and
`[Node2, Node1]`, ranked with two different sorts, give the same result
`[Node1, Node2]`. -/
theorem RankAndSort_independent_of_input_order_witness :
    JenkinsPlacementStrategy.RankAndSort (BinpackPlacementStrategy.RankAndSort 10 insertionSort)
        (SpreadPlacementStrategy.RankAndSort insertionSort) insertionSort "com.docker.swarm"
        jenkinsSlave
        [exampleNode1 [{ Config := jenkinsSlave }], exampleNode2 [{ Config := jenkinsSlave }]] =
      Outcome.ok
        [exampleNode1 [{ Config := jenkinsSlave }], exampleNode2 [{ Config := jenkinsSlave }]] ∧
    JenkinsPlacementStrategy.RankAndSort (BinpackPlacementStrategy.RankAndSort 10 insertionSort)
        (SpreadPlacementStrategy.RankAndSort insertionSort) insertionSort "com.docker.swarm"
        jenkinsSlave
        [exampleNode1 [{ Config := jenkinsSlave }], exampleNode2 [{ Config := jenkinsSlave }]] =
      JenkinsPlacementStrategy.RankAndSort (BinpackPlacementStrategy.RankAndSort 10 insertionSort)
        (SpreadPlacementStrategy.RankAndSort insertionSort) reverseThenSort "com.docker.swarm"
        jenkinsSlave
        [exampleNode2 [{ Config := jenkinsSlave }], exampleNode1 [{ Config := jenkinsSlave }]] :=
  ⟨by decide,
   (RankAndSort_independent_of_input_order
      (BinpackPlacementStrategy.RankAndSort 10 insertionSort)
      (SpreadPlacementStrategy.RankAndSort insertionSort) insertionSort reverseThenSort
      "com.docker.swarm" jenkinsSlave
      [exampleNode1 [{ Config := jenkinsSlave }], exampleNode2 [{ Config := jenkinsSlave }]]
      [exampleNode2 [{ Config := jenkinsSlave }], exampleNode1 [{ Config := jenkinsSlave }]]
      (by decide) (by decide) (by decide) insertionSort_contract reverseThenSort_contract
      (List.Perm.swap _ _ [])
      (fun ws h => by
        have e : weightNodesByCapacity "com.docker.swarm" jenkinsSlave
            [exampleNode1 [{ Config := jenkinsSlave }],
              exampleNode2 [{ Config := jenkinsSlave }]] (-5) =
            Outcome.ok [scoredNode1, scoredNode2] := by decide
        rw [e] at h
        cases h
        exact List.pairwise_pair.mpr (by decide))).1⟩

end Strategy
